import Mathlib

/-!
Verification development for the loan report generator
(`client_credit_union/report_generator`).

The Python source manipulates strings, pandas tables and JSON records.  We use
a shallow embedding:

* a Python string is a list of Unicode code points (`PyStr := List Nat`);
  Python `str.lower`/`str.upper`/`str.strip`/`str.split` are modelled on code
  points (ASCII case mapping, which is what the data at issue exercises);
* a pandas table is a list of rows (structures), `groupby`/`merge`/`fillna`
  are explicit list functions; group keys appear in first-encounter order
  where pandas would sort them — no claim below depends on row order;
* Python exceptions are `Except String` values carrying the exception name;
* Python floats are modelled by `Rat`, plus an explicit `PFloat` type where
  pandas can produce `NaN`/`inf` (float division); Python `round` (banker's
  rounding on binary floats) is modelled by rational rounding — no claim
  below depends on tie or representation behaviour.
-/

/-- A Python string as its list of Unicode code points. -/
abbrev PyStr := List Nat

/-- Code points of a Lean string literal, used to write concrete inputs. -/
def strOf (s : String) : PyStr := s.toList.map Char.toNat

/-- ASCII lower-casing of one code point, as in Python `str.lower` on the
ASCII range. -/
def pyLowerC (n : Nat) : Nat := if 65 ≤ n ∧ n ≤ 90 then n + 32 else n

/-- ASCII upper-casing of one code point, as in Python `str.upper` on the
ASCII range. -/
def pyUpperC (n : Nat) : Nat := if 97 ≤ n ∧ n ≤ 122 then n - 32 else n

/-- Python whitespace test (`str.split`/`str.strip` default separators) on the
ASCII range: space, tab, LF, VT, FF, CR. -/
def isWsC (n : Nat) : Bool := decide (n = 32 ∨ n = 9 ∨ n = 10 ∨ n = 11 ∨ n = 12 ∨ n = 13)

/-- Python `str.lower`. -/
def pyLower (s : PyStr) : PyStr := s.map pyLowerC

/-- Python `str.upper`. -/
def pyUpper (s : PyStr) : PyStr := s.map pyUpperC

/-- Python `str.strip()`: drop leading and trailing whitespace. -/
def pyStrip (s : PyStr) : PyStr :=
  ((s.dropWhile isWsC).reverse.dropWhile isWsC).reverse

/-- Worker for Python `str.split()` (split on whitespace runs, dropping empty
tokens); `acc` holds the reversed current token. -/
def splitWsAux : List Nat → List Nat → List PyStr
  | [], acc => if acc = [] then [] else [acc.reverse]
  | c :: cs, acc =>
    if isWsC c then
      if acc = [] then splitWsAux cs [] else acc.reverse :: splitWsAux cs []
    else splitWsAux cs (c :: acc)

/-- Python `str.split()` with no separator argument. -/
def pySplitWs (s : PyStr) : List PyStr := splitWsAux s []

/-- Python `needle in hay` substring test. -/
def pyContains (hay needle : PyStr) : Bool :=
  hay.tails.any (fun t => needle.isPrefixOf t)

/-- report_3/preprocess.py, `first_last`: `name.strip().lower().split()`, then
`f"{parts[0]} {parts[-1]}"` when there are at least two tokens, else the
single token.  `none` models the `IndexError` Python raises on a
whitespace-only name (`parts[0]` with `parts == []`). -/
def first_last (name : PyStr) : Option PyStr :=
  match pySplitWs (pyLower (pyStrip name)) with
  | [] => none
  | [p] => some p
  | p :: q :: rest => some (p ++ 32 :: (q :: rest).getLastD [])

/-- Modelled from the spec wording: normalization of an officer name is
`lowercase(first_token) + " " + lowercase(last_token)` over the
whitespace-separated tokens of the name, a single-token name being kept as
that one lowercased token (and no token at all having no normal form). -/
def spec_normalize (name : PyStr) : Option PyStr :=
  match pySplitWs (pyLower name) with
  | [] => none
  | [p] => some p
  | p :: q :: rest => some (p ++ 32 :: (q :: rest).getLastD [])

section StringLemmas

lemma isWsC_pyLowerC (n : Nat) : isWsC (pyLowerC n) = isWsC n := by
  unfold pyLowerC isWsC
  split
  · rename_i h
    simp only [decide_eq_decide]
    omega
  · rfl

lemma pyLowerC_idem (n : Nat) : pyLowerC (pyLowerC n) = pyLowerC n := by
  unfold pyLowerC
  split_ifs <;> omega

lemma pyLower_idem (l : PyStr) : pyLower (pyLower l) = pyLower l := by
  unfold pyLower
  rw [List.map_map]
  exact List.map_congr_left (fun c _ => pyLowerC_idem c)

lemma dropWhile_ws_map_lower (l : PyStr) :
    List.dropWhile isWsC (l.map pyLowerC) = (List.dropWhile isWsC l).map pyLowerC := by
  rw [List.dropWhile_map]
  have hfun : (isWsC ∘ pyLowerC) = isWsC := funext (fun c => isWsC_pyLowerC c)
  rw [hfun]

lemma pyStrip_pyLower (l : PyStr) : pyStrip (pyLower l) = pyLower (pyStrip l) := by
  unfold pyStrip pyLower
  rw [dropWhile_ws_map_lower, ← List.map_reverse, dropWhile_ws_map_lower, ← List.map_reverse]

lemma splitWsAux_all_ws (ws : List Nat) (acc : List Nat)
    (h : ∀ c ∈ ws, isWsC c = true) :
    splitWsAux ws acc = if acc = [] then [] else [acc.reverse] := by
  induction ws generalizing acc with
  | nil => rfl
  | cons c cs ih =>
    have hc : isWsC c = true := h c (by simp)
    have hcs : ∀ x ∈ cs, isWsC x = true := fun x hx => h x (by simp [hx])
    by_cases hacc : acc = []
    · subst hacc
      simp [splitWsAux, hc, ih [] hcs]
    · simp [splitWsAux, hc, hacc, ih [] hcs]

lemma splitWsAux_append_ws (ys ws : List Nat) (acc : List Nat)
    (h : ∀ c ∈ ws, isWsC c = true) :
    splitWsAux (ys ++ ws) acc = splitWsAux ys acc := by
  induction ys generalizing acc with
  | nil =>
    simp only [List.nil_append]
    rw [splitWsAux_all_ws ws acc h]
    rfl
  | cons c cs ih =>
    by_cases hc : isWsC c = true
    · by_cases hacc : acc = []
      · subst hacc
        simp [splitWsAux, hc, ih []]
      · simp [splitWsAux, hc, hacc, ih []]
    · simp only [List.cons_append]
      simp [splitWsAux, hc, ih (c :: acc)]

lemma splitWsAux_dropWhile (cs : List Nat) :
    splitWsAux (cs.dropWhile isWsC) [] = splitWsAux cs [] := by
  induction cs with
  | nil => rfl
  | cons c cs ih =>
    by_cases hc : isWsC c = true
    · rw [List.dropWhile_cons_of_pos hc, ih]
      simp [splitWsAux, hc]
    · rw [List.dropWhile_cons_of_neg (by simp [hc])]

lemma splitWsAux_nonws (t rest : List Nat) (acc : List Nat)
    (h : ∀ c ∈ t, isWsC c = false) :
    splitWsAux (t ++ rest) acc = splitWsAux rest (t.reverse ++ acc) := by
  induction t generalizing acc with
  | nil => simp
  | cons c cs ih =>
    have hc : isWsC c = false := h c (by simp)
    have hcs : ∀ x ∈ cs, isWsC x = false := fun x hx => h x (by simp [hx])
    simp only [List.cons_append]
    rw [show splitWsAux (c :: (cs ++ rest)) acc = splitWsAux (cs ++ rest) (c :: acc) by
      simp [splitWsAux, hc]]
    rw [ih (c :: acc) hcs]
    simp

lemma mem_takeWhile_ws (l : List Nat) (c : Nat) (h : c ∈ l.takeWhile isWsC) :
    isWsC c = true := by
  induction l with
  | nil => simp [List.takeWhile] at h
  | cons a as ih =>
    rw [List.takeWhile_cons] at h
    by_cases ha : isWsC a = true
    · simp [ha] at h
      rcases h with h | h
      · subst h; exact ha
      · exact ih h
    · simp [ha] at h

lemma pySplitWs_strip (s : PyStr) : pySplitWs (pyStrip s) = pySplitWs s := by
  unfold pySplitWs pyStrip
  rw [← splitWsAux_dropWhile s]
  set a := s.dropWhile isWsC with ha
  have hdecomp : (a.reverse.dropWhile isWsC).reverse ++ (a.reverse.takeWhile isWsC).reverse = a := by
    rw [← List.reverse_append, List.takeWhile_append_dropWhile]
    exact List.reverse_reverse a
  conv_rhs => rw [← hdecomp]
  rw [splitWsAux_append_ws]
  intro c hc
  rw [List.mem_reverse] at hc
  exact mem_takeWhile_ws a.reverse c hc

lemma tokens_strip_lower (n : PyStr) :
    pySplitWs (pyLower (pyStrip n)) = pySplitWs (pyLower n) := by
  rw [← pyStrip_pyLower, pySplitWs_strip]

/-- The two sides of claim C1 part (a): the source normalization equals the
spec-worded normalization. -/
lemma first_last_eq_spec_normalize (name : PyStr) :
    first_last name = spec_normalize name := by
  unfold first_last spec_normalize
  rw [tokens_strip_lower]

lemma splitWsAux_tokens (cs : List Nat) :
    ∀ (acc : List Nat), (∀ c ∈ acc, isWsC c = false) →
    ∀ t ∈ splitWsAux cs acc, t ≠ [] ∧ ∀ c ∈ t, isWsC c = false := by
  induction cs with
  | nil =>
    intro acc hacc t ht
    unfold splitWsAux at ht
    by_cases hacc0 : acc = []
    · simp [hacc0] at ht
    · simp only [hacc0, if_neg, List.mem_singleton, ite_false] at ht
      subst ht
      constructor
      · simp [hacc0]
      · intro c hc
        exact hacc c (List.mem_reverse.mp hc)
  | cons c cs ih =>
    intro acc hacc t ht
    by_cases hw : isWsC c = true
    · by_cases hacc0 : acc = []
      · subst hacc0
        rw [show splitWsAux (c :: cs) [] = splitWsAux cs [] by simp [splitWsAux, hw]] at ht
        exact ih [] (by simp) t ht
      · rw [show splitWsAux (c :: cs) acc = acc.reverse :: splitWsAux cs [] by
          simp [splitWsAux, hw, hacc0]] at ht
        rcases List.mem_cons.mp ht with ht | ht
        · subst ht
          exact ⟨by simp [hacc0], fun x hx => hacc x (List.mem_reverse.mp hx)⟩
        · exact ih [] (by simp) t ht
    · rw [show splitWsAux (c :: cs) acc = splitWsAux cs (c :: acc) by
        simp [splitWsAux, hw]] at ht
      refine ih (c :: acc) ?_ t ht
      intro x hx
      rcases List.mem_cons.mp hx with hx | hx
      · subst hx
        simpa using hw
      · exact hacc x hx

lemma splitWsAux_chars (p : Nat → Prop) (cs : List Nat) :
    ∀ (acc : List Nat), (∀ c ∈ cs, p c) → (∀ c ∈ acc, p c) →
    ∀ t ∈ splitWsAux cs acc, ∀ c ∈ t, p c := by
  induction cs with
  | nil =>
    intro acc _ h2 t ht
    unfold splitWsAux at ht
    by_cases hacc0 : acc = []
    · simp [hacc0] at ht
    · simp only [hacc0, if_neg, List.mem_singleton, ite_false] at ht
      subst ht
      intro c hc
      exact h2 c (List.mem_reverse.mp hc)
  | cons c cs ih =>
    intro acc h1 h2 t ht
    have h1c : ∀ x ∈ cs, p x := fun x hx => h1 x (by simp [hx])
    by_cases hw : isWsC c = true
    · by_cases hacc0 : acc = []
      · subst hacc0
        rw [show splitWsAux (c :: cs) [] = splitWsAux cs [] by simp [splitWsAux, hw]] at ht
        exact ih [] h1c (by simp) t ht
      · rw [show splitWsAux (c :: cs) acc = acc.reverse :: splitWsAux cs [] by
          simp [splitWsAux, hw, hacc0]] at ht
        rcases List.mem_cons.mp ht with ht | ht
        · subst ht
          intro x hx
          exact h2 x (List.mem_reverse.mp hx)
        · exact ih [] h1c (by simp) t ht
    · rw [show splitWsAux (c :: cs) acc = splitWsAux cs (c :: acc) by
        simp [splitWsAux, hw]] at ht
      refine ih (c :: acc) h1c ?_ t ht
      intro x hx
      rcases List.mem_cons.mp hx with hx | hx
      · rw [hx]
        exact h1 c (by simp)
      · exact h2 x hx

lemma pyLower_fixed (l : PyStr) (h : ∀ c ∈ l, pyLowerC c = c) : pyLower l = l := by
  unfold pyLower
  calc l.map pyLowerC = l.map id := List.map_congr_left h
  _ = l := List.map_id l

lemma dropWhile_false (p : Nat → Bool) (l : List Nat) (h : ∀ c ∈ l, p c = false) :
    l.dropWhile p = l := by
  cases l with
  | nil => rfl
  | cons a l =>
    rw [List.dropWhile_cons_of_neg]
    simp [h a (by simp)]

lemma pyStrip_nonws (l : PyStr) (h : ∀ c ∈ l, isWsC c = false) : pyStrip l = l := by
  unfold pyStrip
  rw [dropWhile_false isWsC l h,
    dropWhile_false isWsC l.reverse (fun c hc => h c (List.mem_reverse.mp hc)),
    List.reverse_reverse]

lemma getLastD_mem_cons (rest : List PyStr) :
    ∀ (q d : PyStr), (q :: rest).getLastD d ∈ q :: rest := by
  induction rest with
  | nil =>
    intro q d
    simp [List.getLastD]
  | cons r rs ih =>
    intro q d
    have h := ih r q
    simp only [List.getLastD] at h ⊢
    exact List.mem_cons_of_mem q h

lemma pySplitWs_single (t : PyStr) (hne : t ≠ []) (h : ∀ c ∈ t, isWsC c = false) :
    pySplitWs t = [t] := by
  unfold pySplitWs
  have hx := splitWsAux_nonws t [] [] h
  simp only [List.append_nil] at hx
  rw [hx]
  simp [splitWsAux, hne]

lemma pySplitWs_pair (t1 t2 : PyStr) (h1ne : t1 ≠ []) (h2ne : t2 ≠ [])
    (h1 : ∀ c ∈ t1, isWsC c = false) (h2 : ∀ c ∈ t2, isWsC c = false) :
    pySplitWs (t1 ++ 32 :: t2) = [t1, t2] := by
  unfold pySplitWs
  rw [splitWsAux_nonws t1 (32 :: t2) [] h1]
  rw [show splitWsAux (32 :: t2) (t1.reverse ++ []) = t1 :: splitWsAux t2 [] by
    simp [splitWsAux, isWsC, h1ne]]
  have := splitWsAux_nonws t2 [] [] h2
  simp only [List.append_nil] at this
  rw [this]
  simp [splitWsAux, h2ne]

/-- A normalized officer name is a fixed point of `first_last`: applying the
normalization to an already-normalized name returns it unchanged (as happens
in `preprocess` when `first_last` is re-applied to the `Normalized Name`
column built from `first_last` outputs). -/
lemma first_last_norm (n k : PyStr) (h : first_last n = some k) :
    first_last k = some k := by
  unfold first_last at h ⊢
  have htokne : ∀ t ∈ pySplitWs (pyLower (pyStrip n)), t ≠ [] ∧ ∀ c ∈ t, isWsC c = false :=
    splitWsAux_tokens (pyLower (pyStrip n)) [] (by simp)
  have htokch : ∀ t ∈ pySplitWs (pyLower (pyStrip n)), ∀ c ∈ t, pyLowerC c = c :=
    splitWsAux_chars (fun c => pyLowerC c = c) (pyLower (pyStrip n)) []
      (by
        intro c hc
        unfold pyLower at hc
        rcases List.mem_map.mp hc with ⟨x, _, rfl⟩
        exact pyLowerC_idem x)
      (by simp)
  rcases hparts : pySplitWs (pyLower (pyStrip n)) with _ | ⟨p, _ | ⟨q, rest⟩⟩
  · rw [hparts] at h
    simp at h
  · rw [hparts] at h
    simp only at h
    have hk : k = p := by
      injection h with h
      exact h.symm
    subst hk
    have hp := htokne k (by rw [hparts]; simp)
    have hpc := htokch k (by rw [hparts]; simp)
    rw [tokens_strip_lower, pyLower_fixed k hpc, pySplitWs_single k hp.1 hp.2]
  · rw [hparts] at h
    simp only at h
    have hlast : (q :: rest).getLastD [] ∈ q :: rest := getLastD_mem_cons rest q []
    have hkval : k = p ++ 32 :: (q :: rest).getLastD [] := by
      injection h with h
      exact h.symm
    have hmemp : p ∈ pySplitWs (pyLower (pyStrip n)) := by rw [hparts]; simp
    have hmeml : (q :: rest).getLastD [] ∈ pySplitWs (pyLower (pyStrip n)) := by
      rw [hparts]
      exact List.mem_cons_of_mem p hlast
    have hp := htokne p hmemp
    have hpc := htokch p hmemp
    have hl := htokne _ hmeml
    have hlc := htokch _ hmeml
    subst hkval
    have hfix : ∀ c ∈ p ++ 32 :: (q :: rest).getLastD [], pyLowerC c = c := by
      intro c hc
      rcases List.mem_append.mp hc with hc | hc
      · exact hpc c hc
      · rcases List.mem_cons.mp hc with hc | hc
        · subst hc; rfl
        · exact hlc c hc
    rw [tokens_strip_lower, pyLower_fixed _ hfix,
      pySplitWs_pair p _ hp.1 hl.1 hp.2 hl.2]
    simp

/-- The credit side of `preprocess` first strips and lowercases the raw
officer column and only then applies `first_last`; this composite equals
`first_last` on the raw name, so both sides of the join use the same key. -/
lemma first_last_pyLower_pyStrip (n : PyStr) :
    first_last (pyLower (pyStrip n)) = first_last n := by
  unfold first_last
  rw [tokens_strip_lower (pyLower (pyStrip n)), pyLower_idem, tokens_strip_lower]

end StringLemmas

/-!
Generic model of the pandas operations used by `report_3/preprocess.py`:
`groupby(key).sum()` over an association list, and `find?`-based lookup with
a `fillna(0)` default.  Where pandas emits group keys in sorted order, the
model emits them in first-encounter order; no claim depends on row order.
-/

/-- Total of the values of all rows carrying key `k`. -/
def sumForKey (rows : List (PyStr × Nat)) (k : PyStr) : Nat :=
  ((rows.filter (fun r => decide (r.1 = k))).map Prod.snd).sum

/-- Model of `df.groupby(key)[val].sum()`: one row per distinct key. -/
def groupSum (rows : List (PyStr × Nat)) : List (PyStr × Nat) :=
  (rows.map Prod.fst).dedup.map (fun k => (k, sumForKey rows k))

/-- Lookup of a key in a keyed table, defaulting to 0 (`fillna(0)` after an
outer merge). -/
def lookupD (rows : List (PyStr × Nat)) (k : PyStr) : Nat :=
  match rows.find? (fun r => decide (r.1 = k)) with
  | some r => r.2
  | none => 0

section GroupLemmas

lemma sumForKey_cons (r : PyStr × Nat) (rows : List (PyStr × Nat)) (k : PyStr) :
    sumForKey (r :: rows) k = (if r.1 = k then r.2 else 0) + sumForKey rows k := by
  unfold sumForKey
  rw [List.filter_cons]
  by_cases h : r.1 = k
  · simp [h]
  · simp [h]

lemma sumForKey_eq_zero (rows : List (PyStr × Nat)) (k : PyStr)
    (h : ∀ r ∈ rows, r.1 ≠ k) : sumForKey rows k = 0 := by
  induction rows with
  | nil => rfl
  | cons r rs ih =>
    rw [sumForKey_cons, if_neg (h r (by simp)), ih (fun x hx => h x (by simp [hx]))]

lemma lookupD_keyfun (g : PyStr → Nat) (k : PyStr) :
    ∀ (ks : List PyStr),
    lookupD (ks.map (fun x => (x, g x))) k = if k ∈ ks then g k else 0 := by
  intro ks
  induction ks with
  | nil => rfl
  | cons k0 ks ih =>
    by_cases h : k0 = k
    · subst h
      unfold lookupD
      rw [List.map_cons, List.find?_cons_of_pos _ (by simp)]
      simp
    · unfold lookupD at ih ⊢
      rw [List.map_cons, List.find?_cons_of_neg _ (by simp [h])]
      rw [ih]
      have hne : ¬(k = k0) := fun hk => h hk.symm
      simp [List.mem_cons, hne]

lemma mem_groupSum_keys (rows : List (PyStr × Nat)) (k : PyStr) :
    k ∈ (groupSum rows).map Prod.fst ↔ ∃ r ∈ rows, r.1 = k := by
  unfold groupSum
  rw [List.map_map]
  rw [show (Prod.fst ∘ (fun x => (x, sumForKey rows x))) = id from rfl, List.map_id,
    List.mem_dedup]
  exact List.mem_map

lemma lookupD_groupSum (rows : List (PyStr × Nat)) (k : PyStr) :
    lookupD (groupSum rows) k = sumForKey rows k := by
  unfold groupSum
  rw [lookupD_keyfun]
  split
  · rfl
  · rename_i h
    symm
    apply sumForKey_eq_zero
    intro r hr hrk
    exact h (List.mem_dedup.mpr (List.mem_map.mpr ⟨r, hr, hrk⟩))

lemma sumForKey_mapKeys (f : PyStr → PyStr) (k : PyStr) :
    ∀ (rows : List (PyStr × Nat)),
    sumForKey (rows.map (fun r => (f r.1, r.2))) k
      = (rows.map (fun r => if f r.1 = k then r.2 else 0)).sum := by
  intro rows
  induction rows with
  | nil => rfl
  | cons r rs ih =>
    rw [List.map_cons, sumForKey_cons, List.map_cons, List.sum_cons, ih]

lemma sum_map_filter_split (q : PyStr × Nat → Bool) (g : PyStr × Nat → Nat) :
    ∀ (l : List (PyStr × Nat)),
    (l.map g).sum = ((l.filter q).map g).sum + ((l.filter (fun a => !q a)).map g).sum := by
  intro l
  induction l with
  | nil => rfl
  | cons a l ih =>
    rw [List.map_cons, List.sum_cons, List.filter_cons, List.filter_cons, ih]
    by_cases h : q a = true
    · simp [h]
      omega
    · simp [h]
      omega

lemma sumForKey_filter_ne (rows : List (PyStr × Nat)) (k0 x : PyStr) (hx : x ≠ k0) :
    sumForKey (rows.filter (fun r => !decide (r.1 = k0))) x = sumForKey rows x := by
  induction rows with
  | nil => rfl
  | cons r rs ih =>
    rw [List.filter_cons, sumForKey_cons]
    by_cases h : r.1 = k0
    · have hrx : r.1 ≠ x := by rw [h]; exact fun hh => hx hh.symm
      simp only [h, if_neg hrx]
      simp [ih]
      intro hk
      exact absurd hk.symm hx
    · have hcond : (!decide (r.1 = k0)) = true := by simp [h]
      rw [if_pos hcond, sumForKey_cons, ih]

lemma sum_if_partition (f : PyStr → PyStr) (k : PyStr) :
    ∀ (ks : List PyStr) (rows : List (PyStr × Nat)), ks.Nodup →
    (∀ r ∈ rows, r.1 ∈ ks) →
    (ks.map (fun x => if f x = k then sumForKey rows x else 0)).sum
      = (rows.map (fun r => if f r.1 = k then r.2 else 0)).sum := by
  intro ks
  induction ks with
  | nil =>
    intro rows _ hcov
    cases rows with
    | nil => rfl
    | cons r rs => exact absurd (hcov r (by simp)) (by simp)
  | cons k0 ks ih =>
    intro rows hnd hcov
    have hnd2 := List.nodup_cons.mp hnd
    rw [sum_map_filter_split (fun r => decide (r.1 = k0))
      (fun r => if f r.1 = k then r.2 else 0) rows]
    have hpart1 : ((rows.filter (fun r => decide (r.1 = k0))).map
        (fun r => if f r.1 = k then r.2 else 0)).sum
        = if f k0 = k then sumForKey rows k0 else 0 := by
      unfold sumForKey
      generalize hq : rows.filter (fun r => decide (r.1 = k0)) = l
      have hl : ∀ r ∈ l, r.1 = k0 := by
        intro r hr
        rw [← hq] at hr
        have := List.of_mem_filter hr
        exact of_decide_eq_true this
      clear hq
      induction l with
      | nil => simp
      | cons a l ihl =>
        rw [List.map_cons, List.sum_cons, List.map_cons, List.sum_cons,
          ihl (fun r hr => hl r (by simp [hr]))]
        rw [hl a (by simp)]
        by_cases hfk : f k0 = k
        · simp [hfk]
        · simp [hfk]
    rw [hpart1]
    have hcov2 : ∀ r ∈ rows.filter (fun r => !decide (r.1 = k0)), r.1 ∈ ks := by
      intro r hr
      have hmem := List.mem_of_mem_filter hr
      have hne : ¬(r.1 = k0) := by
        have := List.of_mem_filter hr
        simpa using this
      rcases List.mem_cons.mp (hcov r hmem) with h | h
      · exact absurd h hne
      · exact h
    rw [← ih (rows.filter (fun r => !decide (r.1 = k0))) hnd2.2 hcov2]
    have hcongr : ks.map (fun x => if f x = k
          then sumForKey (rows.filter (fun r => !decide (r.1 = k0))) x else 0)
        = ks.map (fun x => if f x = k then sumForKey rows x else 0) := by
      apply List.map_congr_left
      intro x hxk
      have hxne : x ≠ k0 := fun hh => hnd2.1 (hh ▸ hxk)
      rw [sumForKey_filter_ne rows k0 x hxne]
    rw [hcongr]
    rw [List.map_cons, List.sum_cons]

lemma sumForKey_mapfun (f : PyStr → PyStr) (g : PyStr → Nat) (k : PyStr) :
    ∀ (ks : List PyStr),
    sumForKey (ks.map (fun x => (f x, g x))) k
      = (ks.map (fun x => if f x = k then g x else 0)).sum := by
  intro ks
  induction ks with
  | nil => rfl
  | cons x xs ih =>
    rw [List.map_cons, sumForKey_cons, List.map_cons, List.sum_cons, ih]

lemma sumForKey_regroup (rows : List (PyStr × Nat)) (f : PyStr → PyStr) (k : PyStr) :
    sumForKey ((groupSum rows).map (fun r => (f r.1, r.2))) k
      = sumForKey (rows.map (fun r => (f r.1, r.2))) k := by
  unfold groupSum
  rw [List.map_map]
  have hcomp : ((fun r : PyStr × Nat => (f r.1, r.2)) ∘ (fun x => (x, sumForKey rows x)))
      = fun x => (f x, sumForKey rows x) := rfl
  rw [hcomp]
  rw [sumForKey_mapfun f (fun x => sumForKey rows x) k, sumForKey_mapKeys f k]
  apply sum_if_partition
  · exact List.nodup_dedup _
  · intro r hr
    exact List.mem_dedup.mpr (List.mem_map.mpr ⟨r, hr, rfl⟩)

/-- Regrouping an already grouped table by the same keys does not change
per-key sums. -/
lemma sumForKey_groupSum (rows : List (PyStr × Nat)) (k : PyStr) :
    sumForKey (groupSum rows) k = sumForKey rows k := by
  have h := sumForKey_regroup rows id k
  simpa using h

end GroupLemmas

/-!
Numeric field parsing.  `pyFloatParse` models Python `float(...)` on the
plain decimal literals this pipeline feeds it (optional sign, digits, at most
one dot, surrounding whitespace); exponents and underscores never occur in
the data and are rejected by the model.  `stripCurrency` models
`.replace("$", "").replace(",", "")` — equally the regex
`.replace("[\$,]", "", regex=True)` of report_1_2 — removing every dollar
sign and comma.  Python `round(x, n)` (banker's rounding on binary floats) is
modelled by `roundTo` on rationals; no claim depends on tie behaviour.
-/

def isDigitC (n : Nat) : Bool := decide (48 ≤ n ∧ n ≤ 57)

def digitsVal (ds : List Nat) : Nat := ds.foldl (fun a c => a * 10 + (c - 48)) 0

def pyFloatAux (cs : PyStr) : Option ℚ :=
  let ip := cs.takeWhile (fun c => !decide (c = 46))
  match cs.dropWhile (fun c => !decide (c = 46)) with
  | [] =>
    if ip ≠ [] ∧ ip.all isDigitC = true then some ((digitsVal ip : ℚ)) else none
  | _ :: fp =>
    if (ip ≠ [] ∨ fp ≠ []) ∧ ip.all isDigitC = true ∧ fp.all isDigitC = true
        ∧ fp.all (fun c => !decide (c = 46)) = true then
      some ((digitsVal ip : ℚ) + (digitsVal fp : ℚ) / ((10 : ℚ) ^ fp.length))
    else none

def pyFloatParse (s : PyStr) : Option ℚ :=
  match pyStrip s with
  | 45 :: t => (pyFloatAux t).map (fun q => -q)
  | 43 :: t => pyFloatAux t
  | t => pyFloatAux t

def stripCurrency (s : PyStr) : PyStr :=
  s.filter (fun c => !decide (c = 36 ∨ c = 44))

/-- Floor of a rational, written with explicit integer floor division so that
it evaluates by kernel reduction. -/
def qfloor (x : ℚ) : ℤ := Int.fdiv x.num (x.den : ℤ)

/-- Round a rational to the nearest integer, halves up. -/
def roundHalfUp (x : ℚ) : ℤ := qfloor (x + 1 / 2)

/-- Python `round(x, prec)` modelled on rationals. -/
def roundTo (prec : Nat) (x : ℚ) : ℚ :=
  ((roundHalfUp (x * (10 : ℚ) ^ prec) : ℤ) : ℚ) / ((10 : ℚ) ^ prec)

/-!
report_3/preprocess.py.  A raw loan object of the JSON snapshot, restricted
to the fields this report reads: `folder` (via `loan.get("folder")`), and the
field codes `"317"` (loan officer), `"ORGID"` (branch) and `"2"` (amount),
each read with `.get` and therefore optional.  The credit spreadsheet, after
melting to long form and `dropna()`, is a list of
(raw officer name, pull count) rows.
-/

structure LoanR3 where
  folder : Option PyStr
  officer : Option PyStr
  orgid : Option PyStr
  amount : Option PyStr
deriving DecidableEq

/-- Python truthiness of an optional string field (`None` and `""` falsy). -/
def truthy : Option PyStr → Bool
  | none => false
  | some s => !decide (s = [])

def closed2025 : PyStr := strOf "Closed 2025"

/-- `[loan for loan in loan_data if loan.get("folder") == "Closed 2025"]`. -/
def closedLoansOf (loans : List LoanR3) : List LoanR3 :=
  loans.filter (fun l => decide (l.folder = some closed2025))

/-- The raw (truthy) officer names of the closed loans, before normalization:
`loan["fields"]["317"] for loan in closed_loans if loan["fields"].get("317")`. -/
def closedOfficerRaw (loans : List LoanR3) : List PyStr :=
  (closedLoansOf loans).filterMap
    (fun l => if truthy l.officer = true then l.officer else none)

/-- Apply `first_last` to every name, failing like Python does (IndexError on
a whitespace-only name). -/
def normNamesE : List PyStr → Except String (List PyStr)
  | [] => .ok []
  | n :: ns =>
    match first_last n with
    | none => .error "IndexError"
    | some k =>
      match normNamesE ns with
      | .error e => .error e
      | .ok ks => .ok (k :: ks)

/-- Apply `first_last` to the key of every keyed row (`.apply(first_last)` on
a key column), failing like Python does. -/
def normRowsE : List (PyStr × Nat) → Except String (List (PyStr × Nat))
  | [] => .ok []
  | r :: rs =>
    match first_last r.1 with
    | none => .error "IndexError"
    | some k =>
      match normRowsE rs with
      | .error e => .error e
      | .ok ks => .ok ((k, r.2) :: ks)

/-- `credit_df["Loan Officer"].str.strip().str.lower()` followed by
`groupby("Loan Officer")["Credit Pulls"].sum()` on the melted long table. -/
def creditTotals (ledger : List (PyStr × Nat)) : List (PyStr × Nat) :=
  groupSum (ledger.map (fun r => (pyLower (pyStrip r.1), r.2)))

/-- `credit_totals["Normalized Name"] = ...apply(first_last)` then
`groupby("Normalized Name")["Credit Pulls"].sum()`. -/
def creditTotalsGroupedE (ledger : List (PyStr × Nat)) : Except String (List (PyStr × Nat)) :=
  match normRowsE (creditTotals ledger) with
  | .error e => .error e
  | .ok keyed => .ok (groupSum keyed)

/-- `pd.Series(closed_officers).value_counts()`: closed-loan count per
(already normalized) officer name.  `value_counts` sorts by
count; the model keeps first-encounter order, on which no claim depends. -/
def closedPerOfficerE (loans : List LoanR3) : Except String (List (PyStr × Nat)) :=
  match normNamesE (closedOfficerRaw loans) with
  | .error e => .error e
  | .ok names => .ok (groupSum (names.map (fun n => (n, 1))))

/-- `closed_per_officer["Normalized Name"] = ...apply(first_last)` then
`groupby("Normalized Name")["Closed Loans"].sum()`. -/
def closedGroupedE (loans : List LoanR3) : Except String (List (PyStr × Nat)) :=
  match closedPerOfficerE loans with
  | .error e => .error e
  | .ok cpo =>
    match normRowsE cpo with
    | .error e => .error e
    | .ok keyed => .ok (groupSum keyed)

/-- The `Close Rate (%)` lambda: `round(closed/pulls*100, 1)` when
`Credit Pulls > 0`, else `None`. -/
def close_rate_pct (closed pulls : Nat) : Option ℚ :=
  if 0 < pulls then some (roundTo 1 ((closed : ℚ) / (pulls : ℚ) * 100)) else none

/-- The `Loans per Pull` lambda: `round(closed/pulls, 2)` when
`Credit Pulls > 0`, else `None`. -/
def loans_per_pull (closed pulls : Nat) : Option ℚ :=
  if 0 < pulls then some (roundTo 2 ((closed : ℚ) / (pulls : ℚ))) else none

/-- Python `str.capitalize()` of one token. -/
def pyCapitalizeTok (t : PyStr) : PyStr :=
  match t with
  | [] => []
  | c :: cs => pyUpperC c :: cs.map pyLowerC

/-- The display name: `" ".join([w.capitalize() for w in x.split()])`. -/
def capWords (s : PyStr) : PyStr :=
  List.intercalate [32] ((pySplitWs s).map pyCapitalizeTok)

/-- Keys of `pd.merge(..., how="outer")`: union of both key columns (pandas
emits them sorted; the model keeps first-encounter order). -/
def mergedKeysOf (a b : List (PyStr × Nat)) : List PyStr :=
  ((a.map Prod.fst) ++ (b.map Prod.fst)).dedup

/-- One row of the final reconciled officer table of report 3. -/
structure OfficerRow where
  normalizedName : PyStr
  creditPulls : Nat
  closedLoans : Nat
  closeRatePct : Option ℚ
  loansPerPull : Option ℚ
  loanOfficer : PyStr
  orgid : Option PyStr
  loanAmount : ℚ
deriving DecidableEq

/-- The `officer_branch_amount_triplets` comprehension: for each closed loan
with truthy officer, ORGID and amount fields, the triple
`(first_last(officer), orgid, float(str(amount).replace("$","").replace(",","").strip()))`;
`first_last` and `float` fail exactly as in Python. -/
def tripletListE : List LoanR3 → Except String (List (PyStr × PyStr × ℚ))
  | [] => .ok []
  | l :: ls =>
    if truthy l.officer = true ∧ truthy l.orgid = true ∧ truthy l.amount = true then
      match first_last (l.officer.getD []) with
      | none => .error "IndexError"
      | some k =>
        match pyFloatParse (stripCurrency (l.amount.getD [])) with
        | none => .error "ValueError"
        | some amt =>
          match tripletListE ls with
          | .error e => .error e
          | .ok ts => .ok ((k, l.orgid.getD [], amt) :: ts)
    else tripletListE ls

/-- First-encounter-order deduplication (`collections.Counter` key order). -/
def firstDedupAux : List PyStr → List PyStr → List PyStr
  | [], _ => []
  | x :: xs, seen =>
    if x ∈ seen then firstDedupAux xs seen else x :: firstDedupAux xs (x :: seen)

def firstDedup (l : List PyStr) : List PyStr := firstDedupAux l []

def countOcc (l : List PyStr) (a : PyStr) : Nat :=
  (l.filter (fun x => decide (x = a))).length

/-- `Counter(x).most_common(1)[0][0]`: the value with the highest count,
ties broken by first encounter. -/
def firstMode (l : List PyStr) : Option PyStr :=
  match firstDedup l with
  | [] => none
  | x :: xs => some (xs.foldl (fun best y => if countOcc l best < countOcc l y then y else best) x)

/-- `officer_branch_map` restricted to one key, then the left merge: the
dominant branch of an officer, `none` (NaN) when the officer has no triplet. -/
def branchFor (trips : List (PyStr × PyStr × ℚ)) (k : PyStr) : Option PyStr :=
  if trips.any (fun t => decide (t.1 = k)) then
    firstMode ((trips.filter (fun t => decide (t.1 = k))).map (fun t => t.2.1))
  else none

/-- `officer_amount_map` restricted to one key, after the left merge and
`fillna(0)`: total parseable closed-loan amount of an officer. -/
def amountFor (trips : List (PyStr × PyStr × ℚ)) (k : PyStr) : ℚ :=
  ((trips.filter (fun t => decide (t.1 = k))).map (fun t => t.2.2)).sum

/-- One merged row: the outer merge with `fillna(0)` on the two grouped
tables, the two metric lambdas, the display name, and the two left merges
with `fillna(0)` on the amount. -/
def mkOfficerRow (ct cg : List (PyStr × Nat)) (trips : List (PyStr × PyStr × ℚ))
    (k : PyStr) : OfficerRow :=
  { normalizedName := k
    creditPulls := lookupD ct k
    closedLoans := lookupD cg k
    closeRatePct := close_rate_pct (lookupD cg k) (lookupD ct k)
    loansPerPull := loans_per_pull (lookupD cg k) (lookupD ct k)
    loanOfficer := capWords k
    orgid := branchFor trips k
    loanAmount := amountFor trips k }

/-- report_3/preprocess.py `preprocess`: the full reconciled officer table,
or the Python exception the run dies with. -/
def preprocessR3 (ledger : List (PyStr × Nat)) (loans : List LoanR3) :
    Except String (List OfficerRow) :=
  match creditTotalsGroupedE ledger with
  | .error e => .error e
  | .ok ct =>
    match closedGroupedE loans with
    | .error e => .error e
    | .ok cg =>
      match tripletListE (closedLoansOf loans) with
      | .error e => .error e
      | .ok trips =>
        .ok ((mergedKeysOf ct cg).map (mkOfficerRow ct cg trips))

/-- Credit pulls attributed to a normalized identity: the sum of the pull
counts of every ledger row whose raw officer name normalizes to `key`. -/
def normPulls (ledger : List (PyStr × Nat)) (key : PyStr) : Nat :=
  ((ledger.filter (fun r => decide (first_last r.1 = some key))).map Prod.snd).sum

/-- Closed loans attributed to a normalized identity: the number of closed
loans whose (truthy) raw officer name normalizes to `key`. -/
def normClosed (loans : List LoanR3) (key : PyStr) : Nat :=
  ((closedOfficerRaw loans).filter (fun n => decide (first_last n = some key))).length

section ReconcilerLemmas

lemma normNamesE_ok (raw : List PyStr) :
    ∀ (names : List PyStr), normNamesE raw = .ok names →
    names = raw.map (fun n => (first_last n).getD []) ∧
      ∀ n ∈ raw, (first_last n).isSome = true := by
  induction raw with
  | nil =>
    intro names h
    unfold normNamesE at h
    injection h with h
    subst h
    exact ⟨rfl, by simp⟩
  | cons n ns ih =>
    intro names h
    unfold normNamesE at h
    rcases hfl : first_last n with _ | k
    · rw [hfl] at h
      exact absurd h (by simp)
    · rw [hfl] at h
      rcases hns : normNamesE ns with e | ks
      · rw [hns] at h
        exact absurd h (by simp)
      · rw [hns] at h
        injection h with h
        subst h
        obtain ⟨hmap, hsome⟩ := ih ks hns
        constructor
        · rw [List.map_cons, hfl, ← hmap]
          rfl
        · intro x hx
          rcases List.mem_cons.mp hx with hx | hx
          · rw [hx, hfl]; rfl
          · exact hsome x hx

lemma normRowsE_ok (rows : List (PyStr × Nat)) :
    ∀ (keyed : List (PyStr × Nat)), normRowsE rows = .ok keyed →
    keyed = rows.map (fun r => ((first_last r.1).getD [], r.2)) ∧
      ∀ r ∈ rows, (first_last r.1).isSome = true := by
  induction rows with
  | nil =>
    intro keyed h
    unfold normRowsE at h
    injection h with h
    subst h
    exact ⟨rfl, by simp⟩
  | cons r rs ih =>
    intro keyed h
    unfold normRowsE at h
    rcases hfl : first_last r.1 with _ | k
    · rw [hfl] at h
      exact absurd h (by simp)
    · rw [hfl] at h
      rcases hrs : normRowsE rs with e | ks
      · rw [hrs] at h
        exact absurd h (by simp)
      · rw [hrs] at h
        injection h with h
        subst h
        obtain ⟨hmap, hsome⟩ := ih ks hrs
        constructor
        · rw [List.map_cons, hfl, ← hmap]
          rfl
        · intro x hx
          rcases List.mem_cons.mp hx with hx | hx
          · rw [hx, hfl]; rfl
          · exact hsome x hx

lemma sumForKey_fl (key : PyStr) :
    ∀ (rows : List (PyStr × Nat)), (∀ r ∈ rows, (first_last r.1).isSome = true) →
    sumForKey (rows.map (fun r => ((first_last r.1).getD [], r.2))) key
      = ((rows.filter (fun r => decide (first_last r.1 = some key))).map Prod.snd).sum := by
  intro rows
  induction rows with
  | nil => intro _; rfl
  | cons r rs ih =>
    intro hsome
    rw [List.map_cons, sumForKey_cons, List.filter_cons]
    rcases hfl : first_last r.1 with _ | k
    · exact absurd (hsome r (by simp)) (by rw [hfl]; simp)
    · rw [ih (fun x hx => hsome x (by simp [hx]))]
      by_cases hk : k = key
      · subst hk
        simp
      · have h1 : ¬(some k = some key) := by simp [hk]
        simp [hk, h1]

lemma sumForKey_ones (key : PyStr) :
    ∀ (names : List PyStr),
    sumForKey (names.map (fun n => (n, 1))) key
      = (names.filter (fun n => decide (n = key))).length := by
  intro names
  induction names with
  | nil => rfl
  | cons n ns ih =>
    rw [List.map_cons, sumForKey_cons, List.filter_cons, ih]
    by_cases hk : n = key
    · simp [hk]
      omega
    · simp [hk]

/-- The credit side of the reconciliation: after grouping by lowered name,
normalizing and regrouping, the pull count recorded for a normalized key is
the sum of the pulls of every raw ledger row normalizing to that key. -/
lemma creditTotalsGroupedE_lookup (ledger : List (PyStr × Nat)) (ct : List (PyStr × Nat))
    (key : PyStr) (h : creditTotalsGroupedE ledger = .ok ct) :
    lookupD ct key = normPulls ledger key := by
  unfold creditTotalsGroupedE at h
  rcases hn : normRowsE (creditTotals ledger) with e | keyed
  · rw [hn] at h
    exact absurd h (by simp)
  · rw [hn] at h
    injection h with h
    subst h
    obtain ⟨hkeyed, hsome⟩ := normRowsE_ok _ _ hn
    rw [lookupD_groupSum, hkeyed]
    unfold creditTotals
    rw [show sumForKey
        ((groupSum (ledger.map (fun r : PyStr × Nat => (pyLower (pyStrip r.1), r.2)))).map
          (fun r => ((first_last r.1).getD [], r.2))) key
        = sumForKey
        ((ledger.map (fun r : PyStr × Nat => (pyLower (pyStrip r.1), r.2))).map
          (fun r => ((first_last r.1).getD [], r.2))) key from
      sumForKey_regroup _ (fun x => (first_last x).getD []) key]
    rw [List.map_map]
    have hcomp :
        ((fun r : PyStr × Nat => ((first_last r.1).getD [], r.2))
          ∘ (fun r : PyStr × Nat => (pyLower (pyStrip r.1), r.2)))
        = fun r : PyStr × Nat => ((first_last (pyLower (pyStrip r.1))).getD [], r.2) := rfl
    rw [hcomp]
    have hpt : (ledger.map (fun r : PyStr × Nat => ((first_last (pyLower (pyStrip r.1))).getD [], r.2)))
        = ledger.map (fun r : PyStr × Nat => ((first_last r.1).getD [], r.2)) := by
      apply List.map_congr_left
      intro r _
      rw [first_last_pyLower_pyStrip]
    rw [hpt]
    have hsl : ∀ r ∈ ledger, (first_last r.1).isSome = true := by
      intro r hr
      have hbase : pyLower (pyStrip r.1) ∈
          ((ledger.map (fun x : PyStr × Nat => (pyLower (pyStrip x.1), x.2))).map Prod.fst) := by
        exact List.mem_map.mpr ⟨(pyLower (pyStrip r.1), r.2),
          List.mem_map.mpr ⟨r, hr, rfl⟩, rfl⟩
      have hkeys : pyLower (pyStrip r.1) ∈ (creditTotals ledger).map Prod.fst := by
        unfold creditTotals
        rcases List.mem_map.mp hbase with ⟨row, hrow, hrowk⟩
        exact (mem_groupSum_keys _ _).mpr ⟨row, hrow, hrowk⟩
      rcases List.mem_map.mp hkeys with ⟨row, hrow, hrowk⟩
      have := hsome row hrow
      rw [hrowk, first_last_pyLower_pyStrip] at this
      exact this
    exact sumForKey_fl key ledger hsl

/-- The loan side of the reconciliation: the closed-loan count recorded for a
normalized key is the number of closed loans whose raw officer name
normalizes to that key. -/
lemma closedGroupedE_lookup (loans : List LoanR3) (cg : List (PyStr × Nat))
    (key : PyStr) (h : closedGroupedE loans = .ok cg) :
    lookupD cg key = normClosed loans key := by
  unfold closedGroupedE at h
  rcases hcpo : closedPerOfficerE loans with e | cpo
  · rw [hcpo] at h
    exact absurd h (by simp)
  · rw [hcpo] at h
    dsimp only at h
    rcases hn2 : normRowsE cpo with e | keyed
    · rw [hn2] at h
      exact absurd h (by simp)
    · rw [hn2] at h
      injection h with h
      subst h
      unfold closedPerOfficerE at hcpo
      rcases hn1 : normNamesE (closedOfficerRaw loans) with e | names
      · rw [hn1] at hcpo
        exact absurd hcpo (by simp)
      · rw [hn1] at hcpo
        injection hcpo with hcpo
        obtain ⟨hnames, hsraw⟩ := normNamesE_ok _ _ hn1
        obtain ⟨hkeyed, _⟩ := normRowsE_ok _ _ hn2
        rw [lookupD_groupSum, hkeyed, ← hcpo]
        rw [show sumForKey
            ((groupSum (names.map (fun n : PyStr => (n, 1)))).map
              (fun r => ((first_last r.1).getD [], r.2))) key
            = sumForKey
            ((names.map (fun n : PyStr => (n, 1))).map
              (fun r => ((first_last r.1).getD [], r.2))) key from
          sumForKey_regroup _ (fun x => (first_last x).getD []) key]
        rw [List.map_map]
        have hcomp :
            ((fun r : PyStr × Nat => ((first_last r.1).getD [], r.2))
              ∘ (fun n : PyStr => (n, 1)))
            = fun n : PyStr => ((first_last n).getD [], 1) := rfl
        rw [hcomp]
        have hfix : (names.map (fun n : PyStr => ((first_last n).getD [], 1)))
            = names.map (fun n : PyStr => (n, 1)) := by
          apply List.map_congr_left
          intro n hn
          rw [hnames] at hn
          rcases List.mem_map.mp hn with ⟨rawn, hrawn, hfl⟩
          have hs := hsraw rawn hrawn
          rcases ho : first_last rawn with _ | k
          · rw [ho] at hs
            exact absurd hs (by simp)
          · rw [ho] at hfl
            simp only [Option.getD_some] at hfl
            subst hfl
            rw [first_last_norm rawn k ho]
            rfl
        rw [hfix, sumForKey_ones]
        rw [hnames]
        unfold normClosed
        rw [List.filter_map]
        rw [List.length_map]
        congr 1
        apply List.filter_congr
        intro n hn
        have hs := hsraw n hn
        rcases ho : first_last n with _ | k
        · rw [ho] at hs
          exact absurd hs (by simp)
        · simp only [Function.comp_def, ho, Option.getD_some]
          by_cases hk : k = key
          · simp [hk]
          · have h1 : ¬(some k = some key) := by simp [hk]
            simp [hk, h1]

end ReconcilerLemmas

section MergeShapeLemmas

lemma preprocessR3_shape (ledger : List (PyStr × Nat)) (loans : List LoanR3)
    (table : List OfficerRow) (h : preprocessR3 ledger loans = .ok table) :
    ∃ ct cg trips, creditTotalsGroupedE ledger = .ok ct ∧ closedGroupedE loans = .ok cg ∧
      tripletListE (closedLoansOf loans) = .ok trips ∧
      table = (mergedKeysOf ct cg).map (mkOfficerRow ct cg trips) := by
  unfold preprocessR3 at h
  rcases h1 : creditTotalsGroupedE ledger with e | ct
  · rw [h1] at h
    exact absurd h (by simp)
  · rw [h1] at h
    dsimp only at h
    rcases h2 : closedGroupedE loans with e | cg
    · rw [h2] at h
      exact absurd h (by simp)
    · rw [h2] at h
      dsimp only at h
      rcases h3 : tripletListE (closedLoansOf loans) with e | trips
      · rw [h3] at h
        exact absurd h (by simp)
      · rw [h3] at h
        injection h with h
        exact ⟨ct, cg, trips, rfl, rfl, rfl, h.symm⟩

lemma filter_len_one_of_nodup (key : PyStr) :
    ∀ (l : List PyStr), l.Nodup → key ∈ l →
    (l.filter (fun x => decide (x = key))).length = 1 := by
  intro l
  induction l with
  | nil =>
    intro _ hk
    simp at hk
  | cons a l ih =>
    intro hnd hk
    rw [List.filter_cons]
    rcases List.nodup_cons.mp hnd with ⟨hna, hndl⟩
    by_cases ha : a = key
    · subst ha
      rw [if_pos (by simp)]
      have hnil : l.filter (fun x => decide (x = a)) = [] := by
        rw [List.filter_eq_nil_iff]
        intro x hx
        simp only [decide_eq_true_eq]
        intro hxa
        exact hna (hxa ▸ hx)
      rw [hnil]
      rfl
    · rw [if_neg (by simp [ha])]
      rcases List.mem_cons.mp hk with h | h
      · exact absurd h.symm ha
      · exact ih hndl h

lemma mergedKeysOf_nodup (a b : List (PyStr × Nat)) : (mergedKeysOf a b).Nodup :=
  List.nodup_dedup _

lemma mem_mergedKeysOf_left (a b : List (PyStr × Nat)) (key : PyStr)
    (h : key ∈ a.map Prod.fst) : key ∈ mergedKeysOf a b :=
  List.mem_dedup.mpr (List.mem_append.mpr (Or.inl h))

lemma mem_mergedKeysOf_right (a b : List (PyStr × Nat)) (key : PyStr)
    (h : key ∈ b.map Prod.fst) : key ∈ mergedKeysOf a b :=
  List.mem_dedup.mpr (List.mem_append.mpr (Or.inr h))

/-- A raw ledger officer name that normalizes to `key` puts `key` among the
credit-side group keys. -/
lemma key_in_ct (ledger : List (PyStr × Nat)) (ct : List (PyStr × Nat)) (n1 key : PyStr)
    (h : creditTotalsGroupedE ledger = .ok ct) (hn : n1 ∈ ledger.map Prod.fst)
    (hfl : first_last n1 = some key) : key ∈ ct.map Prod.fst := by
  unfold creditTotalsGroupedE at h
  rcases hnr : normRowsE (creditTotals ledger) with e | keyed
  · rw [hnr] at h
    exact absurd h (by simp)
  · rw [hnr] at h
    injection h with h
    subst h
    obtain ⟨hkeyed, _⟩ := normRowsE_ok _ _ hnr
    rcases List.mem_map.mp hn with ⟨r0, hr0, hr0n⟩
    have hbasemem : (pyLower (pyStrip n1), r0.2) ∈
        ledger.map (fun r : PyStr × Nat => (pyLower (pyStrip r.1), r.2)) :=
      List.mem_map.mpr ⟨r0, hr0, by rw [hr0n]⟩
    have hctkey : pyLower (pyStrip n1) ∈ (creditTotals ledger).map Prod.fst := by
      unfold creditTotals
      exact (mem_groupSum_keys _ _).mpr ⟨_, hbasemem, rfl⟩
    rcases List.mem_map.mp hctkey with ⟨row, hrow, hrowk⟩
    apply (mem_groupSum_keys _ _).mpr
    refine ⟨((first_last row.1).getD [], row.2), ?_, ?_⟩
    · rw [hkeyed]
      exact List.mem_map.mpr ⟨row, hrow, rfl⟩
    · rw [hrowk, first_last_pyLower_pyStrip, hfl]
      rfl

/-- A (truthy) closed-loan officer name that normalizes to `key` puts `key`
among the loan-side group keys. -/
lemma key_in_cg (loans : List LoanR3) (cg : List (PyStr × Nat)) (n2 key : PyStr)
    (h : closedGroupedE loans = .ok cg) (hn : n2 ∈ closedOfficerRaw loans)
    (hfl : first_last n2 = some key) : key ∈ cg.map Prod.fst := by
  unfold closedGroupedE at h
  rcases hcpo : closedPerOfficerE loans with e | cpo
  · rw [hcpo] at h
    exact absurd h (by simp)
  · rw [hcpo] at h
    dsimp only at h
    rcases hn2 : normRowsE cpo with e | keyed
    · rw [hn2] at h
      exact absurd h (by simp)
    · rw [hn2] at h
      injection h with h
      subst h
      unfold closedPerOfficerE at hcpo
      rcases hn1 : normNamesE (closedOfficerRaw loans) with e | names
      · rw [hn1] at hcpo
        exact absurd hcpo (by simp)
      · rw [hn1] at hcpo
        injection hcpo with hcpo
        obtain ⟨hnames, _⟩ := normNamesE_ok _ _ hn1
        obtain ⟨hkeyed, _⟩ := normRowsE_ok _ _ hn2
        have hkmem : key ∈ names := by
          rw [hnames]
          refine List.mem_map.mpr ⟨n2, hn, ?_⟩
          rw [hfl]
          rfl
        have hbmem : (key, 1) ∈ names.map (fun n : PyStr => (n, 1)) :=
          List.mem_map.mpr ⟨key, hkmem, rfl⟩
        have hcpokey : key ∈ cpo.map Prod.fst := by
          rw [← hcpo]
          exact (mem_groupSum_keys _ _).mpr ⟨_, hbmem, rfl⟩
        rcases List.mem_map.mp hcpokey with ⟨row, hrow, hrowk⟩
        apply (mem_groupSum_keys _ _).mpr
        refine ⟨((first_last row.1).getD [], row.2), ?_, ?_⟩
        · rw [hkeyed]
          exact List.mem_map.mpr ⟨row, hrow, rfl⟩
        · rw [hrowk, first_last_norm n2 key hfl]
          rfl

end MergeShapeLemmas

/-- Claim C1.  (a) Officer-name normalization (`first_last`) is exactly the
spec-worded function: lowercase the name and keep its first and last
whitespace-separated tokens joined by one space, a single-token name staying
as its one lowercased token.  (b) It is applied identically on the
credit-ledger side (where the column is pre-stripped and pre-lowered) and on
the loan side.  (c) For every pair of raw officer names `n1, n2` normalizing
to the same identity `key`, the reconciled table of `preprocess` has exactly
one row keyed `key`, and that row carries `creditPulls` equal to the sum of
the pull counts of every raw ledger name normalizing to `key` (hence of both
names of the pair) and `closedLoans` equal to the number of closed loans
whose officer normalizes to `key` (hence covering both names). -/
theorem spec2_C1 :
    (∀ name : PyStr, first_last name = spec_normalize name) ∧
    (∀ name : PyStr, first_last (pyLower (pyStrip name)) = first_last name) ∧
    (∀ (ledger : List (PyStr × Nat)) (loans : List LoanR3) (table : List OfficerRow)
       (n1 n2 key : PyStr),
      preprocessR3 ledger loans = Except.ok table →
      first_last n1 = some key → first_last n2 = some key →
      (n1 ∈ ledger.map Prod.fst ∨ n1 ∈ closedOfficerRaw loans) →
      ((table.filter (fun r => decide (r.normalizedName = key))).length = 1 ∧
       ∀ row ∈ table, row.normalizedName = key →
         row.creditPulls = normPulls ledger key ∧
         row.closedLoans = normClosed loans key)) := by
  refine ⟨first_last_eq_spec_normalize, first_last_pyLower_pyStrip, ?_⟩
  intro ledger loans table n1 n2 key hok hfl1 hfl2 happ
  obtain ⟨ct, cg, trips, hct, hcg, htr, htab⟩ := preprocessR3_shape _ _ _ hok
  have hkey : key ∈ mergedKeysOf ct cg := by
    rcases happ with h | h
    · exact mem_mergedKeysOf_left _ _ _ (key_in_ct _ _ _ _ hct h hfl1)
    · exact mem_mergedKeysOf_right _ _ _ (key_in_cg _ _ _ _ hcg h hfl1)
  constructor
  · rw [htab, List.filter_map, List.length_map]
    have hfun : ((fun r : OfficerRow => decide (r.normalizedName = key))
        ∘ mkOfficerRow ct cg trips) = fun x : PyStr => decide (x = key) := rfl
    rw [hfun]
    exact filter_len_one_of_nodup key _ (mergedKeysOf_nodup ct cg) hkey
  · intro row hrow hrowk
    rw [htab] at hrow
    rcases List.mem_map.mp hrow with ⟨k0, _, hk0row⟩
    have hk0 : k0 = key := by
      rw [← hrowk, ← hk0row]
      rfl
    subst hk0
    rw [← hk0row]
    exact ⟨creditTotalsGroupedE_lookup ledger ct k0 hct,
      closedGroupedE_lookup loans cg k0 hcg⟩

instance {A B : Type} [DecidableEq A] [DecidableEq B] : DecidableEq (Except A B) := fun a b =>
  match a, b with
  | .error x, .error y =>
    if h : x = y then isTrue (by rw [h]) else isFalse (fun hc => h (by injection hc))
  | .ok x, .ok y =>
    if h : x = y then isTrue (by rw [h]) else isFalse (fun hc => h (by injection hc))
  | .error _, .ok _ => isFalse (fun hc => by injection hc)
  | .ok _, .error _ => isFalse (fun hc => by injection hc)

def c1Ledger : List (PyStr × Nat) := [(strOf "Jane A. Doe", 3), (strOf "JANE DOE", 2)]

def c1Loans : List LoanR3 :=
  [{ folder := some (strOf "Closed 2025"), officer := some (strOf "jane doe"),
     orgid := none, amount := none }]

def c1Table : List OfficerRow :=
  [{ normalizedName := strOf "jane doe", creditPulls := 5, closedLoans := 1,
     closeRatePct := some 20, loansPerPull := some (1 / 5),
     loanOfficer := strOf "Jane Doe", orgid := none, loanAmount := 0 }]

unseal Rat.mul Rat.inv Rat.add Rat.sub in
/-- Witness for C1: the two raw spellings `"Jane A. Doe"` (3 pulls) and
`"JANE DOE"` (2 pulls) and the loan-side spelling `"jane doe"` (one closed
loan) merge into the single row keyed `"jane doe"` with 5 pulls and 1 closed
loan. -/
theorem spec2_C1_witness :
    preprocessR3 c1Ledger c1Loans = Except.ok c1Table ∧
    first_last (strOf "Jane A. Doe") = some (strOf "jane doe") ∧
    first_last (strOf "JANE DOE") = some (strOf "jane doe") ∧
    strOf "Jane A. Doe" ∈ c1Ledger.map Prod.fst ∧
    normPulls c1Ledger (strOf "jane doe") = 5 ∧
    normClosed c1Loans (strOf "jane doe") = 1 ∧
    ((c1Table.filter (fun r => decide (r.normalizedName = strOf "jane doe"))).length = 1 ∧
     ∀ row ∈ c1Table, row.normalizedName = strOf "jane doe" →
       row.creditPulls = normPulls c1Ledger (strOf "jane doe") ∧
       row.closedLoans = normClosed c1Loans (strOf "jane doe")) :=
  ⟨by decide, by decide, by decide, by decide, by decide, by decide,
   spec2_C1.2.2 c1Ledger c1Loans c1Table (strOf "Jane A. Doe") (strOf "JANE DOE")
     (strOf "jane doe") (by decide) (by decide) (by decide) (Or.inl (by decide))⟩

unseal Rat.mul Rat.inv Rat.add Rat.sub in
lemma roundTo_one_zero : roundTo 1 (0 : ℚ) = 0 := by decide

lemma close_rate_pct_zero (pulls : Nat) (h : 0 < pulls) :
    close_rate_pct 0 pulls = some 0 := by
  unfold close_rate_pct
  rw [if_pos h]
  have hz : ((0 : Nat) : ℚ) / (pulls : ℚ) * 100 = 0 := by simp
  rw [hz, roundTo_one_zero]

/-- Claim C6.  In the reconciled officer table: a row with zero credit pulls
has both `closeRatePct` and `loansPerPull` equal to the undefined marker
(`None`), and a row with zero closed loans but positive credit pulls has
`closeRatePct = 0`. -/
theorem spec2_C6 (ledger : List (PyStr × Nat)) (loans : List LoanR3)
    (table : List OfficerRow) (h : preprocessR3 ledger loans = Except.ok table) :
    ∀ row ∈ table,
      (row.creditPulls = 0 → row.closeRatePct = none ∧ row.loansPerPull = none) ∧
      (row.closedLoans = 0 → 0 < row.creditPulls → row.closeRatePct = some 0) := by
  obtain ⟨ct, cg, trips, _, _, _, htab⟩ := preprocessR3_shape _ _ _ h
  intro row hrow
  rw [htab] at hrow
  rcases List.mem_map.mp hrow with ⟨k, _, hkrow⟩
  rw [← hkrow]
  constructor
  · intro hp0
    have hp0k : lookupD ct k = 0 := hp0
    constructor
    · show close_rate_pct (lookupD cg k) (lookupD ct k) = none
      rw [hp0k]
      rfl
    · show loans_per_pull (lookupD cg k) (lookupD ct k) = none
      rw [hp0k]
      rfl
  · intro hc0 hppos
    have hc0k : lookupD cg k = 0 := hc0
    have hpposk : 0 < lookupD ct k := hppos
    show close_rate_pct (lookupD cg k) (lookupD ct k) = some 0
    rw [hc0k]
    exact close_rate_pct_zero _ hpposk

def w6Ledger : List (PyStr × Nat) := [(strOf "Bob Ray", 4)]

def w6Loans : List LoanR3 :=
  [{ folder := some (strOf "Closed 2025"), officer := some (strOf "Ann Wu"),
     orgid := none, amount := none }]

def w6Row1 : OfficerRow :=
  { normalizedName := strOf "bob ray", creditPulls := 4, closedLoans := 0,
    closeRatePct := some 0, loansPerPull := some 0,
    loanOfficer := strOf "Bob Ray", orgid := none, loanAmount := 0 }

def w6Row2 : OfficerRow :=
  { normalizedName := strOf "ann wu", creditPulls := 0, closedLoans := 1,
    closeRatePct := none, loansPerPull := none,
    loanOfficer := strOf "Ann Wu", orgid := none, loanAmount := 0 }

def w6Table : List OfficerRow := [w6Row1, w6Row2]

unseal Rat.mul Rat.inv Rat.add Rat.sub in
/-- Witness for C6: officer `"Ann Wu"` (no pulls, one closed loan) gets the
undefined marker in both rate columns; officer `"Bob Ray"` (4 pulls, no
closed loans) gets a close rate of exactly 0. -/
theorem spec2_C6_witness :
    preprocessR3 w6Ledger w6Loans = Except.ok w6Table ∧
    w6Row2 ∈ w6Table ∧ w6Row2.creditPulls = 0 ∧
    (w6Row2.closeRatePct = none ∧ w6Row2.loansPerPull = none) ∧
    w6Row1 ∈ w6Table ∧ w6Row1.closedLoans = 0 ∧ 0 < w6Row1.creditPulls ∧
    w6Row1.closeRatePct = some 0 :=
  ⟨by decide, by decide, by decide,
   (spec2_C6 w6Ledger w6Loans w6Table (by decide) w6Row2 (by decide)).1 (by decide),
   by decide, by decide, by decide,
   (spec2_C6 w6Ledger w6Loans w6Table (by decide) w6Row1 (by decide)).2 (by decide) (by decide)⟩

/-!
report_1_2/preprocess.py (and the identical copies in report_4/5):
`map_product_type`, the record flattener, and the column construction of
`preprocess_json`.
-/

/-- Python `str(value)` on an optional string: `None` prints as `"None"`.
(A field absent from the whole column would be a pandas `NaN`, printing as
`"nan"`; both match none of the classification rules.) -/
def pyStrOfOpt (v : Option PyStr) : PyStr :=
  match v with
  | none => strOf "None"
  | some s => s

/-- report_1_2/preprocess.py `map_product_type`: uppercase `str(value)`,
then first-match-wins substring rules. -/
def map_product_type (value : Option PyStr) : PyStr :=
  let val := pyUpper (pyStrOfOpt value)
  if pyContains val (strOf "FHA") = true then strOf "FHA"
  else if pyContains val (strOf "VA") = true then strOf "VA"
  else if pyContains val (strOf "NON QM") = true ∨ pyContains val (strOf "NON-QM") = true then
    strOf "Non-QM"
  else if pyContains val (strOf "CONV") = true ∨ pyContains val (strOf "CONVENTIONAL") = true then
    strOf "Conventional"
  else strOf "Other"

/-- Modelled from the spec wording of the Product Category Classifier:
uppercase the input, null becoming the literal string `"NONE"`; then, in
fixed order: contains `"FHA"` gives FHA; else contains `"VA"` gives VA; else
contains `"NON QM"` or `"NON-QM"` gives Non-QM; else contains `"CONV"` or
`"CONVENTIONAL"` gives Conventional; else Other. -/
def spec_classify (value : Option PyStr) : PyStr :=
  let val := match value with
    | none => strOf "NONE"
    | some s => pyUpper s
  if pyContains val (strOf "FHA") = true then strOf "FHA"
  else if pyContains val (strOf "VA") = true then strOf "VA"
  else if pyContains val (strOf "NON QM") = true ∨ pyContains val (strOf "NON-QM") = true then
    strOf "Non-QM"
  else if pyContains val (strOf "CONV") = true ∨ pyContains val (strOf "CONVENTIONAL") = true then
    strOf "Conventional"
  else strOf "Other"

/-- `df["folder"].str.extract(r"(Active|Closed)")`: leftmost match, `Active`
tried before `Closed` at each position. -/
def extract_status : PyStr → Option PyStr
  | [] => none
  | c :: cs =>
    if (strOf "Active").isPrefixOf (c :: cs) = true then some (strOf "Active")
    else if (strOf "Closed").isPrefixOf (c :: cs) = true then some (strOf "Closed")
    else extract_status cs

/-- A raw loan object of the JSON snapshot: `loanId` and `folder` may be
missing, `fields` maps field codes to values. -/
structure RawLoan where
  loanId : Option PyStr
  folder : Option PyStr
  fields : List (PyStr × Option PyStr)
deriving DecidableEq

/-- One flattened row: `loanId`, `folder`, and every field lifted
untouched.  The identity columns are optional because pandas materializes a
record missing the key as a `NaN` cell, not a missing key (`none` models
that `NaN`). -/
structure FlatRec where
  loanId : Option PyStr
  folder : Option PyStr
  fields : List (PyStr × Option PyStr)
deriving DecidableEq

/-- The flat record of one pandas row: identity values as they sit in the
`loanId`/`folder` columns (`NaN` kept as `none`), fields passed through
untouched. -/
def flatRecOf (l : RawLoan) : FlatRec :=
  { loanId := l.loanId, folder := l.folder, fields := l.fields }

/-- The flattening loop over `pd.read_json(...).to_dict(orient="records")`.
`pd.read_json` builds the DataFrame with the union of all record keys, so a
record missing `loanId` (or `folder`) gets a `NaN` cell and
`to_dict(orient="records")` emits the key for every row: `loan["loanId"]`
returns that `NaN` and the loop keeps the row and continues.  `KeyError` is
raised only when the key is absent from every record of a non-empty file, so
that the column does not exist at all (the dict construction reads `loanId`
first, then `folder`). -/
def flatten_records : List RawLoan → Except String (List FlatRec)
  | [] => .ok []
  | l :: ls =>
    if (l :: ls).all (fun x => x.loanId.isNone) = true then .error "KeyError"
    else if (l :: ls).all (fun x => x.folder.isNone) = true then .error "KeyError"
    else .ok ((l :: ls).map flatRecOf)

/-- Column access `df[code]` on one row: the value of the field, `none`
standing for pandas `NaN` when the record lacks the code. -/
def getField (r : FlatRec) (code : PyStr) : Option PyStr :=
  match r.fields.find? (fun p => decide (p.1 = code)) with
  | some p => p.2
  | none => none

/-- One row of the report_1_2 canonical table (`loanId`/`folder` may be the
`NaN` of a record that lacked the key). -/
structure Row12 where
  loanId : Option PyStr
  folder : Option PyStr
  loan_amount : Option ℚ
  product_type : Option PyStr
  title_company : Option PyStr
  channel : Option PyStr
  state : Option PyStr
  loan_officer : Option PyStr
  status : Option PyStr
  product_category : PyStr
  branch : Option PyStr
deriving DecidableEq

/-- Derivation of one row of `preprocess_json`.  The amount column is
`df["2"].replace("[\$,]", "", regex=True).astype(float)`: a `NaN` survives
as `NaN`, a string with a non-numeric remainder raises `ValueError`
(pandas evaluates the column at once; the model evaluates per row, which
yields the same observable result: either the full table or the
exception).  `.str.extract` on a `NaN` folder yields `NaN`.  The model
assumes each derived column code appears in at least one record, as in the
shipped data (`df[code]` on a column absent from every record would raise
`KeyError`); concrete inputs below satisfy this. -/
def row12Of (r : FlatRec) : Except String Row12 :=
  match getField r (strOf "2") with
  | none =>
    .ok { loanId := r.loanId, folder := r.folder, loan_amount := none
          product_type := getField r (strOf "1401")
          title_company := getField r (strOf "411")
          channel := getField r (strOf "2626")
          state := getField r (strOf "14")
          loan_officer := getField r (strOf "317")
          status := r.folder.bind extract_status
          product_category := map_product_type (getField r (strOf "1401"))
          branch := getField r (strOf "ORGID") }
  | some s =>
    match pyFloatParse (stripCurrency s) with
    | none => .error "ValueError"
    | some q =>
      .ok { loanId := r.loanId, folder := r.folder, loan_amount := some q
            product_type := getField r (strOf "1401")
            title_company := getField r (strOf "411")
            channel := getField r (strOf "2626")
            state := getField r (strOf "14")
            loan_officer := getField r (strOf "317")
            status := r.folder.bind extract_status
            product_category := map_product_type (getField r (strOf "1401"))
            branch := getField r (strOf "ORGID") }

def rows12Of : List FlatRec → Except String (List Row12)
  | [] => .ok []
  | r :: rs =>
    match row12Of r with
    | .error e => .error e
    | .ok row =>
      match rows12Of rs with
      | .error e => .error e
      | .ok rest => .ok (row :: rest)

/-- report_1_2/preprocess.py `preprocess_json`. -/
def preprocess_json (loans : List RawLoan) : Except String (List Row12) :=
  match flatten_records loans with
  | .error e => .error e
  | .ok flat => rows12Of flat

/-- Claim C2.  The classifier uppercases its input, null becoming the literal
string `"NONE"` which matches none of the five rule keywords (so null
classifies as Other); the rules apply case-insensitively,
first-match-wins, in the fixed order FHA, VA, Non-QM, Conventional, Other
(`map_product_type` equals the spec-worded cascade `spec_classify`); and
every value whose uppercasing contains `"FHA"` — whatever else it contains —
classifies as FHA. -/
theorem spec2_C2 :
    (pyStrOfOpt none = strOf "None" ∧ pyUpper (strOf "None") = strOf "NONE" ∧
     pyContains (strOf "NONE") (strOf "FHA") = false ∧
     pyContains (strOf "NONE") (strOf "VA") = false ∧
     pyContains (strOf "NONE") (strOf "NON QM") = false ∧
     pyContains (strOf "NONE") (strOf "NON-QM") = false ∧
     pyContains (strOf "NONE") (strOf "CONV") = false ∧
     pyContains (strOf "NONE") (strOf "CONVENTIONAL") = false ∧
     map_product_type none = strOf "Other") ∧
    (∀ v : Option PyStr, map_product_type v = spec_classify v) ∧
    (∀ s : PyStr, pyContains (pyUpper s) (strOf "FHA") = true →
      map_product_type (some s) = strOf "FHA") := by
  refine ⟨by decide, ?_, ?_⟩
  · intro v
    cases v with
    | none => decide
    | some s => rfl
  · intro s hs
    unfold map_product_type
    simp only [pyStrOfOpt]
    rw [if_pos hs]

/-- Witness for C2: `"FHA CONV"` contains both an FHA and a Conventional
keyword and classifies as FHA, and so does the lowercase `"fha conv"`. -/
theorem spec2_C2_witness :
    pyContains (pyUpper (strOf "FHA CONV")) (strOf "FHA") = true ∧
    map_product_type (some (strOf "FHA CONV")) = strOf "FHA" ∧
    pyContains (pyUpper (strOf "fha conv")) (strOf "FHA") = true ∧
    map_product_type (some (strOf "fha conv")) = strOf "FHA" :=
  ⟨by decide, spec2_C2.2.2 (strOf "FHA CONV") (by decide),
   by decide, spec2_C2.2.2 (strOf "fha conv") (by decide)⟩

def c7Good : RawLoan :=
  { loanId := some (strOf "L1"), folder := some (strOf "Closed 2025"),
    fields := [(strOf "9999", some (strOf "mystery-code-value"))] }

def c7Bad : RawLoan :=
  { loanId := none, folder := some (strOf "Active Pipeline"), fields := [] }

def c7GoodFlat : FlatRec :=
  { loanId := some (strOf "L1"), folder := some (strOf "Closed 2025"),
    fields := [(strOf "9999", some (strOf "mystery-code-value"))] }

def c7BadFlat : FlatRec :=
  { loanId := none, folder := some (strOf "Active Pipeline"), fields := [] }

/-- Counterexample for C7 as stated: a batch containing one record with no
`loanId` neither fails with any error nor drops that record — pandas gives
the record a `NaN` loanId cell (the column exists thanks to the well-formed
records), the loop keeps the row, and the run produces all three rows. -/
theorem spec2_C7_cx :
    flatten_records [c7Good, c7Bad, c7Good]
      = Except.ok [c7GoodFlat, c7BadFlat, c7GoodFlat] := by decide

lemma flatten_records_length (loans : List RawLoan) :
    ∀ (flat : List FlatRec), flatten_records loans = Except.ok flat →
    flat.length = loans.length := by
  intro flat h
  cases loans with
  | nil =>
    unfold flatten_records at h
    dsimp only at h
    injection h with h
    rw [← h]
    rfl
  | cons l ls =>
    unfold flatten_records at h
    dsimp only at h
    by_cases h1 : (l :: ls).all (fun x => x.loanId.isNone) = true
    · rw [if_pos h1] at h
      exact absurd h (by simp)
    · rw [if_neg h1] at h
      by_cases h2 : (l :: ls).all (fun x => x.folder.isNone) = true
      · rw [if_pos h2] at h
        exact absurd h (by simp)
      · rw [if_neg h2] at h
        injection h with h
        rw [← h, List.length_map]

/-- Claim C7 amended.  A record missing `loanId` or `folder` does not raise
`MalformedRecordError` (no such class exists) and is not dropped: when at
least one record of the batch carries each identity key, pandas materializes
the missing entries as `NaN` cells and the flattener keeps every row —
identity columns and field mappings pass through untouched, one output row
per record.  Only when an identity key is absent from every record of a
non-empty batch does the column not exist, and the loop then dies with
`KeyError` for the whole preprocess. -/
theorem spec2_C7 :
    (∀ (loans : List RawLoan) (flat : List FlatRec),
      flatten_records loans = Except.ok flat →
      flat.length = loans.length ∧
      flat.map (fun r => r.fields) = loans.map (fun l => l.fields) ∧
      flat.map (fun r => r.loanId) = loans.map (fun l => l.loanId) ∧
      flat.map (fun r => r.folder) = loans.map (fun l => l.folder)) ∧
    (∀ loans : List RawLoan, loans ≠ [] →
      (∃ l ∈ loans, l.loanId.isSome = true) →
      (∃ l ∈ loans, l.folder.isSome = true) →
      flatten_records loans = Except.ok (loans.map flatRecOf)) ∧
    (∀ loans : List RawLoan, loans ≠ [] →
      ((∀ l ∈ loans, l.loanId = none) ∨ (∀ l ∈ loans, l.folder = none)) →
      flatten_records loans = Except.error "KeyError") := by
  refine ⟨?_, ?_, ?_⟩
  · intro loans flat h
    refine ⟨flatten_records_length loans flat h, ?_⟩
    cases loans with
    | nil =>
      unfold flatten_records at h
      dsimp only at h
      injection h with h
      rw [← h]
      exact ⟨rfl, rfl, rfl⟩
    | cons l ls =>
      unfold flatten_records at h
      dsimp only at h
      by_cases h1 : (l :: ls).all (fun x => x.loanId.isNone) = true
      · rw [if_pos h1] at h
        exact absurd h (by simp)
      · rw [if_neg h1] at h
        by_cases h2 : (l :: ls).all (fun x => x.folder.isNone) = true
        · rw [if_pos h2] at h
          exact absurd h (by simp)
        · rw [if_neg h2] at h
          injection h with h
          rw [← h, List.map_map, List.map_map, List.map_map]
          exact ⟨rfl, rfl, rfl⟩
  · intro loans hne hid hf
    cases loans with
    | nil => exact absurd rfl hne
    | cons l ls =>
      unfold flatten_records
      dsimp only
      rw [if_neg, if_neg]
      · intro hall
        obtain ⟨x, hx, hxf⟩ := hf
        have hxn := List.all_eq_true.mp hall x hx
        rw [Option.isNone_iff_eq_none] at hxn
        rw [hxn] at hxf
        exact absurd hxf (by simp)
      · intro hall
        obtain ⟨x, hx, hxi⟩ := hid
        have hxn := List.all_eq_true.mp hall x hx
        rw [Option.isNone_iff_eq_none] at hxn
        rw [hxn] at hxi
        exact absurd hxi (by simp)
  · intro loans hne hcol
    cases loans with
    | nil => exact absurd rfl hne
    | cons l ls =>
      unfold flatten_records
      dsimp only
      rcases hcol with hcol | hcol
      · rw [if_pos]
        exact List.all_eq_true.mpr (fun x hx => by
          rw [Option.isNone_iff_eq_none]
          exact hcol x hx)
      · by_cases h1 : (l :: ls).all (fun x => x.loanId.isNone) = true
        · rw [if_pos h1]
        · rw [if_neg h1, if_pos]
          exact List.all_eq_true.mpr (fun x hx => by
            rw [Option.isNone_iff_eq_none]
            exact hcol x hx)

/-- Witness for the amended C7: the mixed batch (one well-formed record, one
record with no `loanId`) flattens without error, keeping both rows with
fields untouched; the batch in which no record has a `loanId` dies with
`KeyError`. -/
theorem spec2_C7_witness :
    ([c7Good, c7Bad] ≠ [] ∧
     (∃ l ∈ [c7Good, c7Bad], l.loanId.isSome = true) ∧
     (∃ l ∈ [c7Good, c7Bad], l.folder.isSome = true)) ∧
    flatten_records [c7Good, c7Bad] = Except.ok ([c7Good, c7Bad].map flatRecOf) ∧
    [c7Good, c7Bad].map flatRecOf = [c7GoodFlat, c7BadFlat] ∧
    ([c7Bad] ≠ [] ∧ (∀ l ∈ [c7Bad], l.loanId = none)) ∧
    flatten_records [c7Bad] = Except.error "KeyError" :=
  ⟨⟨by decide, ⟨c7Good, by decide, by decide⟩, ⟨c7Good, by decide, by decide⟩⟩,
   spec2_C7.2.1 [c7Good, c7Bad] (by decide)
     ⟨c7Good, by decide, by decide⟩ ⟨c7Good, by decide, by decide⟩,
   by decide,
   ⟨by decide, by decide⟩,
   spec2_C7.2.2 [c7Bad] (by decide) (Or.inl (by decide))⟩

def c4Good : RawLoan :=
  { loanId := some (strOf "L1"), folder := some (strOf "Closed 2025"),
    fields := [(strOf "2", some (strOf "$1,234.50")),
               (strOf "1401", some (strOf "FHA 30 Year")),
               (strOf "411", some (strOf "Acme Title")),
               (strOf "2626", some (strOf "Retail")),
               (strOf "14", some (strOf "CA")),
               (strOf "317", some (strOf "Jane Doe")),
               (strOf "ORGID", some (strOf "B1"))] }

def c4BadAmount : RawLoan :=
  { loanId := some (strOf "L2"), folder := some (strOf "Closed 2025"),
    fields := [(strOf "2", some (strOf "N/A"))] }

def c4Loans : List RawLoan := [c4Good, c4BadAmount]

unseal Rat.mul Rat.inv Rat.add Rat.sub in
/-- Counterexample for C4 as stated: with an `"N/A"` amount in the batch the
row is not excluded-but-counted — `astype(float)` raises `ValueError` and the
entire preprocess fails, so no table exists in which the row could be counted
(and the well-formed `"$1,234.50"` row is lost too). -/
theorem spec2_C4_cx : preprocess_json c4Loans = Except.error "ValueError" := by decide

lemma rows12Of_length (flat : List FlatRec) :
    ∀ (rows : List Row12), rows12Of flat = Except.ok rows → rows.length = flat.length := by
  induction flat with
  | nil =>
    intro rows h
    injection h with h
    rw [← h]
    rfl
  | cons r rs ih =>
    intro rows h
    unfold rows12Of at h
    rcases h1 : row12Of r with e | row
    · rw [h1] at h
      exact absurd h (by simp)
    · rw [h1] at h
      rcases h2 : rows12Of rs with e | rest
      · rw [h2] at h
        exact absurd h (by simp)
      · rw [h2] at h
        injection h with h
        rw [← h, List.length_cons, ih rest h2, List.length_cons]

unseal Rat.mul Rat.inv Rat.add Rat.sub in
/-- Claim C4 amended.  Currency parsing strips `$` and `,` and coerces the
remainder, so `"$1,234.50"` parses to `1234.50`; but a non-numeric remainder
such as `"N/A"` raises `ValueError` (there is no `AmountParseError` and
nothing is logged), aborting the entire preprocess: the row is not excluded
from amount aggregates while staying in count aggregates — no aggregate sees
any row at all.  When preprocessing does succeed, every input record
contributes exactly one row (nothing is dropped). -/
theorem spec2_C4 :
    stripCurrency (strOf "$1,234.50") = strOf "1234.50" ∧
    pyFloatParse (stripCurrency (strOf "$1,234.50")) = some ((2469 : ℚ) / 2) ∧
    pyFloatParse (stripCurrency (strOf "N/A")) = none ∧
    (∀ (loans : List RawLoan) (rows : List Row12),
      preprocess_json loans = Except.ok rows → rows.length = loans.length) ∧
    preprocess_json c4Loans = Except.error "ValueError" := by
  refine ⟨by decide, by decide, by decide, ?_, by decide⟩
  intro loans rows h
  unfold preprocess_json at h
  rcases h1 : flatten_records loans with e | flat
  · rw [h1] at h
    exact absurd h (by simp)
  · rw [h1] at h
    rw [rows12Of_length flat rows h, flatten_records_length loans flat h1]

def c4GoodRow : Row12 :=
  { loanId := some (strOf "L1"), folder := some (strOf "Closed 2025"),
    loan_amount := some ((2469 : ℚ) / 2),
    product_type := some (strOf "FHA 30 Year"),
    title_company := some (strOf "Acme Title"),
    channel := some (strOf "Retail"), state := some (strOf "CA"),
    loan_officer := some (strOf "Jane Doe"), status := some (strOf "Closed"),
    product_category := strOf "FHA", branch := some (strOf "B1") }

unseal Rat.mul Rat.inv Rat.add Rat.sub in
/-- Witness for the amended C4: the single well-formed record (every derived
column code present) preprocesses to exactly one row carrying amount 1234.50,
matching the one-row-per-record count. -/
theorem spec2_C4_witness :
    preprocess_json [c4Good] = Except.ok [c4GoodRow] ∧
    ([c4GoodRow] : List Row12).length = ([c4Good] : List RawLoan).length :=
  ⟨by decide, spec2_C4.2.2.2.1 [c4Good] _ (by decide)⟩

def c9Loans : List RawLoan :=
  [{ loanId := some (strOf "L9"), folder := some (strOf "Closed 2025"),
     fields := [(strOf "2", some (strOf "-$100")),
                (strOf "1401", some (strOf "Conventional 15 Year")),
                (strOf "411", some (strOf "Acme Title")),
                (strOf "2626", some (strOf "Retail")),
                (strOf "14", some (strOf "CA")),
                (strOf "317", some (strOf "Jane Doe")),
                (strOf "ORGID", some (strOf "B1"))] }]

unseal Rat.mul Rat.inv Rat.add Rat.sub in
/-- Counterexample for C9 as stated: the currency string `"-$100"` parses to
the negative amount `-100` and the pipeline accepts the row with that
negative `loan_amount` — a negative parse result is not a parse failure. -/
theorem spec2_C9_cx :
    (preprocess_json c9Loans).map (fun rows => rows.map (fun r => r.loan_amount))
      = Except.ok [some (-100 : ℚ)] := by decide

unseal Rat.mul Rat.inv Rat.add Rat.sub in
/-- Claim C9 amended.  Parsed loan amounts are not constrained to be
non-negative: stripping `$` and `,` from `"-$100"` leaves `"-100"`, which
`float` accepts, and the resulting row carries `loan_amount = -100`; no
non-negativity check exists anywhere in the pipeline. -/
theorem spec2_C9 :
    stripCurrency (strOf "-$100") = strOf "-100" ∧
    pyFloatParse (strOf "-100") = some (-100 : ℚ) ∧
    (preprocess_json c9Loans).map (fun rows => rows.map (fun r => r.loan_amount))
      = Except.ok [some (-100 : ℚ)] := by
  refine ⟨by decide, by decide, by decide⟩

/-!
utils/date_utils.py `parse_date` and the report_4/report_5 context builders.

`parse_date` is `datetime.strptime(date_str, "%m/%d/%Y")` under a bare
`except Exception: return None`.  CPython compiles `%m` to the regex
`1[0-2]|0[1-9]|[1-9]` (one or two digits, value 1..12), `%d` to
`3[01]|[12]\d|0[1-9]|[1-9]` (one or two digits, value 1..31), `%Y` to
exactly four digits, with literal slashes between, anchored: any unconverted
trailing data (e.g. a time component) is a `ValueError`, and the `datetime`
constructor additionally validates the day against the month length.  Every
failure — including `"//"`, `""`, `None` and a trailing time — is swallowed
and returned as `None`; nothing is logged and no distinct error value exists.
-/

/-- Worker for `str.split(sep)` (keeping empty pieces). -/
def splitCAux (sep : Nat) : List Nat → List Nat → List PyStr
  | [], acc => [acc.reverse]
  | c :: cs, acc =>
    if c = sep then acc.reverse :: splitCAux sep cs []
    else splitCAux sep cs (c :: acc)

def pySplitOn (sep : Nat) (s : PyStr) : List PyStr := splitCAux sep s []

def isLeap (y : Nat) : Bool := decide (y % 4 = 0 ∧ (y % 100 ≠ 0 ∨ y % 400 = 0))

def daysInMonth (y m : Nat) : Nat :=
  if m = 2 then (if isLeap y then 29 else 28)
  else if m = 4 ∨ m = 6 ∨ m = 9 ∨ m = 11 then 30
  else 31

structure DateT where
  month : Nat
  day : Nat
  year : Nat
deriving DecidableEq

def parse_date (v : Option PyStr) : Option DateT :=
  match v with
  | none => none
  | some s =>
    match pySplitOn 47 s with
    | [ms, ds, ys] =>
      if ms.all isDigitC = true ∧ 1 ≤ ms.length ∧ ms.length ≤ 2
          ∧ 1 ≤ digitsVal ms ∧ digitsVal ms ≤ 12
          ∧ ds.all isDigitC = true ∧ 1 ≤ ds.length ∧ ds.length ≤ 2
          ∧ 1 ≤ digitsVal ds ∧ digitsVal ds ≤ daysInMonth (digitsVal ys) (digitsVal ms)
          ∧ ys.all isDigitC = true ∧ ys.length = 4 ∧ 1 ≤ digitsVal ys
      then some ⟨digitsVal ms, digitsVal ds, digitsVal ys⟩
      else none
    | _ => none

/-- Proleptic-Gregorian day number of a date (years ≥ 1, the only ones
`parse_date` produces), used for the `.dt.days` difference. -/
def dateOrdinal (dt : DateT) : Int :=
  let y : Int := if dt.month ≤ 2 then (dt.year : Int) - 1 else (dt.year : Int)
  let m : Int := dt.month
  let d : Int := dt.day
  let era : Int := y / 400
  let yoe : Int := y - era * 400
  let doy : Int := (153 * (if 2 < m then m - 3 else m + 9) + 2) / 5 + d - 1
  let doe : Int := yoe * 365 + yoe / 4 - yoe / 100 + doy
  era * 146097 + doe - 719468

/-- One row of the closed-loan table handed to the report 4 context builder
(columns as produced by report_4/preprocess.py: `underwriter` already filled
with `"Unassigned"`, the raw underwriter column retained, and the two date
columns already passed through `parse_date`). -/
structure R4Row where
  folder : PyStr
  underwriter : PyStr
  underwriterRaw : Option PyStr
  submittalDate : Option DateT
  clearToClose : Option DateT
deriving DecidableEq

/-- `closed_df = closed_df[closed_df["folder"] == "Closed 2025"]`. -/
def ctxR4Closed (rows : List R4Row) : List R4Row :=
  rows.filter (fun r => decide (r.folder = closed2025))

/-- The missing-submittal-date count.  The source also compares the parsed
column against `""` and `"//"`; on a parsed (datetime-or-None) column those
comparisons are vacuously false, so only `isna()` counts. -/
def nosubCountR4 (closed : List R4Row) : Nat :=
  (closed.filter (fun r => decide (r.submittalDate = none))).length

/-- The rows entering the average-days-to-close aggregate: both dates
present. -/
def meanPopR4 (closed : List R4Row) : List R4Row :=
  closed.filter (fun r => r.submittalDate.isSome && r.clearToClose.isSome)

/-- `x / y * 100` rounded, raising `ZeroDivisionError` when the base
population is zero — exactly what `round(a / b * 100, prec)` does on
Python ints. -/
def pyDivPct (a b : Nat) (prec : Nat) : Except String ℚ :=
  if b = 0 then .error "ZeroDivisionError"
  else .ok (roundTo prec ((a : ℚ) / (b : ℚ) * 100))

/-- `.mean()` of a list: pandas yields `NaN` on an empty population (no
exception), modelled as `none`. -/
def meanQ (l : List ℚ) : Option ℚ :=
  if l.length = 0 then none else some (l.sum / (l.length : ℚ))

/-- The aggregate slots of the report 4 template context (the run-date and
config-sourced metadata slots are environment input, not computed from the
loan table, and are not modelled). -/
structure CtxR4 where
  cl_qtd : Nat
  cl_underw_qtd : Nat
  cl_nosubdate_qtd : Nat
  cl_nosubdate_per : ℚ
  cl_avg_sub_days : Option ℚ
  cl_unnamed_underw_qtd : Nat
  cl_unnamed_underw_per : ℚ
deriving DecidableEq

/-- report_4/context.py `get_template_context`, aggregate part.  The two
percentage aggregates divide by `cl_qtd` with no guard. -/
def get_template_context_r4 (rows : List R4Row) : Except String CtxR4 :=
  let closed := ctxR4Closed rows
  let qtd := closed.length
  let underw := ((closed.map (fun r => r.underwriter)).dedup).length
  let nosub := nosubCountR4 closed
  match pyDivPct nosub qtd 2 with
  | .error e => .error e
  | .ok nosubPer =>
    let days := (meanPopR4 closed).map (fun r =>
      ((dateOrdinal (r.clearToClose.getD ⟨1, 1, 1⟩)
        - dateOrdinal (r.submittalDate.getD ⟨1, 1, 1⟩) : Int) : ℚ))
    let avg := (meanQ days).map (fun q => roundTo 1 q)
    let unnamed := (closed.filter (fun r =>
      decide (r.underwriterRaw = none) || decide (r.underwriterRaw = some []))).length
    match pyDivPct unnamed qtd 1 with
    | .error e => .error e
    | .ok unnamedPer =>
      .ok { cl_qtd := qtd, cl_underw_qtd := underw, cl_nosubdate_qtd := nosub,
            cl_nosubdate_per := nosubPer, cl_avg_sub_days := avg,
            cl_unnamed_underw_qtd := unnamed, cl_unnamed_underw_per := unnamedPer }

/-- One row of the closed-loan table handed to the report 5 context builder. -/
structure R5Row where
  folder : PyStr
  branchProcessor : PyStr
  branchProcRaw : Option PyStr
  submittalDate : Option DateT
  clearToClose : Option DateT
deriving DecidableEq

def ctxR5Closed (rows : List R5Row) : List R5Row :=
  rows.filter (fun r => decide (r.folder = closed2025))

structure CtxR5 where
  cl_qtd : Nat
  cl_branch_procs_qtd : Nat
  cl_nosubdate_qtd : Nat
  cl_nosubdate_per : ℚ
  cl_avg_sub_days : Option ℚ
  cl_unnamed_branch_procs_qtd : Nat
  cl_unnamed_branch_procs_per : ℚ
deriving DecidableEq

/-- report_5/context.py `get_template_context`, aggregate part (the unnamed
branch-processor filter checks the raw column against null, `""` and
`"//"`). -/
def get_template_context_r5 (rows : List R5Row) : Except String CtxR5 :=
  let closed := ctxR5Closed rows
  let qtd := closed.length
  let procs := ((closed.map (fun r => r.branchProcessor)).dedup).length
  let nosub := (closed.filter (fun r => decide (r.submittalDate = none))).length
  match pyDivPct nosub qtd 2 with
  | .error e => .error e
  | .ok nosubPer =>
    let days := (closed.filter (fun r => r.submittalDate.isSome && r.clearToClose.isSome)).map
      (fun r => ((dateOrdinal (r.clearToClose.getD ⟨1, 1, 1⟩)
        - dateOrdinal (r.submittalDate.getD ⟨1, 1, 1⟩) : Int) : ℚ))
    let avg := (meanQ days).map (fun q => roundTo 1 q)
    let unnamed := (closed.filter (fun r =>
      decide (r.branchProcRaw = none) || decide (r.branchProcRaw = some [])
        || decide (r.branchProcRaw = some (strOf "//")))).length
    match pyDivPct unnamed qtd 1 with
    | .error e => .error e
    | .ok unnamedPer =>
      .ok { cl_qtd := qtd, cl_branch_procs_qtd := procs, cl_nosubdate_qtd := nosub,
            cl_nosubdate_per := nosubPer, cl_avg_sub_days := avg,
            cl_unnamed_branch_procs_qtd := unnamed, cl_unnamed_branch_procs_per := unnamedPer }

/-- A pandas float that may be non-finite: float division by zero yields
`inf`/`-inf`, and `0/0` yields `NaN`, without raising. -/
inductive PFloat
  | val : ℚ → PFloat
  | nan : PFloat
  | inf : PFloat
  | neginf : PFloat
deriving DecidableEq

def pdiv (a b : ℚ) : PFloat :=
  if b = 0 then (if a = 0 then .nan else if 0 < a then .inf else .neginf)
  else .val (a / b)

def proundTo (prec : Nat) : PFloat → PFloat
  | .val q => .val (roundTo prec q)
  | x => x

structure BranchRow where
  orgid : PyStr
  closedLoans : Nat
  creditPulls : Nat
  loansPerPull : PFloat
deriving DecidableEq

/-- report_3/tables.py `generate_closed_pulls_by_branch_table`: group the
officer table by `ORGID` (pandas drops rows with a missing key), sum closed
loans and credit pulls per branch, and divide with `.round(2)` — an unguarded
float division.  The final descending sort is omitted; no claim depends on
row order. -/
def generate_closed_pulls_by_branch_table (rows : List OfficerRow) : List BranchRow :=
  let keyed := rows.filterMap (fun r => r.orgid.map (fun b => (b, r)))
  ((keyed.map Prod.fst).dedup).map (fun b =>
    let grp := (keyed.filter (fun p => decide (p.1 = b))).map Prod.snd
    let cl := (grp.map (fun r => r.closedLoans)).sum
    let cp := (grp.map (fun r => r.creditPulls)).sum
    { orgid := b, closedLoans := cl, creditPulls := cp,
      loansPerPull := proundTo 2 (pdiv (cl : ℚ) (cp : ℚ)) })

section DateLemmas

def fmt2 (n : Nat) : PyStr := [48 + n / 10, 48 + n % 10]

def fmt4 (n : Nat) : PyStr :=
  [48 + n / 1000, 48 + n / 100 % 10, 48 + n / 10 % 10, 48 + n % 10]

lemma splitCAux_no_sep (sep : Nat) (t : List Nat) :
    ∀ (rest acc : List Nat), (∀ c ∈ t, c ≠ sep) →
    splitCAux sep (t ++ rest) acc = splitCAux sep rest (t.reverse ++ acc) := by
  induction t with
  | nil =>
    intro rest acc _
    simp
  | cons c cs ih =>
    intro rest acc h
    have hc : c ≠ sep := h c (by simp)
    simp only [List.cons_append]
    rw [show splitCAux sep (c :: (cs ++ rest)) acc = splitCAux sep (cs ++ rest) (c :: acc) by
      simp [splitCAux, hc]]
    rw [ih rest (c :: acc) (fun x hx => h x (by simp [hx]))]
    simp

lemma pySplitOn_three (a b c : PyStr) (ha : ∀ x ∈ a, x ≠ 47)
    (hb : ∀ x ∈ b, x ≠ 47) (hc : ∀ x ∈ c, x ≠ 47) :
    pySplitOn 47 (a ++ 47 :: (b ++ 47 :: c)) = [a, b, c] := by
  unfold pySplitOn
  rw [splitCAux_no_sep 47 a _ [] ha]
  rw [show splitCAux 47 (47 :: (b ++ 47 :: c)) (a.reverse ++ [])
      = (a.reverse ++ []).reverse :: splitCAux 47 (b ++ 47 :: c) [] by
    simp [splitCAux]]
  rw [splitCAux_no_sep 47 b _ [] hb]
  rw [show splitCAux 47 (47 :: c) (b.reverse ++ [])
      = (b.reverse ++ []).reverse :: splitCAux 47 c [] by
    simp [splitCAux]]
  rw [show (c : List Nat) = c ++ [] by simp] 
  rw [splitCAux_no_sep 47 c [] [] (by simpa using hc)]
  simp [splitCAux]

lemma fmt2_all_digits (n : Nat) (h : n ≤ 99) : (fmt2 n).all isDigitC = true := by
  simp [fmt2, isDigitC]
  omega

lemma fmt2_no_slash (n : Nat) : ∀ x ∈ fmt2 n, x ≠ 47 := by
  simp [fmt2]
  omega

lemma digitsVal_fmt2 (n : Nat) (h : n ≤ 99) : digitsVal (fmt2 n) = n := by
  simp [digitsVal, fmt2]
  omega

lemma fmt4_all_digits (n : Nat) (h : n ≤ 9999) : (fmt4 n).all isDigitC = true := by
  simp [fmt4, isDigitC]
  omega

lemma fmt4_no_slash (n : Nat) : ∀ x ∈ fmt4 n, x ≠ 47 := by
  simp [fmt4]
  omega

lemma digitsVal_fmt4 (n : Nat) (h : n ≤ 9999) : digitsVal (fmt4 n) = n := by
  simp [digitsVal, fmt4]
  omega

lemma daysInMonth_le (y m : Nat) : daysInMonth y m ≤ 31 := by
  unfold daysInMonth
  split_ifs <;> omega

end DateLemmas

/-- Counterexample for C5 as stated: a valid `MM/DD/YYYY` date followed by a
time component is not accepted with the time discarded — `strptime` leaves
unconverted data, the `ValueError` is swallowed, and `parse_date` returns
`None`, indistinguishable from the no-date values. -/
theorem spec2_C5_cx : parse_date (some (strOf "01/02/2025 10:00")) = none := by decide

/-- Claim C5 amended.  `parse_date` accepts exactly the `MM/DD/YYYY` strings
(one-or-two-digit month 1..12, one-or-two-digit day valid for the month,
four-digit year ≥ 1); `"//"`, `""` and null give `None`; but a trailing time
component is not discarded — it too gives `None` — and every other
unparseable string gives the same `None` with nothing logged and no
`DateParseError`, so "no date" and "parse failure" are indistinguishable.
Downstream, a row whose submittal date parsed to `None` (for example from
`"//"`)  is counted by the missing-submittal-date aggregate of report 4 and
is excluded from the average-days population. -/
theorem spec2_C5 :
    (∀ m d y : Nat, 1 ≤ m → m ≤ 12 → 1 ≤ d → d ≤ daysInMonth y m → 1 ≤ y → y ≤ 9999 →
      parse_date (some (fmt2 m ++ 47 :: (fmt2 d ++ 47 :: fmt4 y)))
        = some ⟨m, d, y⟩) ∧
    parse_date (some (strOf "//")) = none ∧
    parse_date (some []) = none ∧
    parse_date none = none ∧
    parse_date (some (strOf "01/02/2025 10:00")) = none ∧
    parse_date (some (strOf "not a date")) = none ∧
    parse_date (some (strOf "//")) = parse_date (some (strOf "not a date")) ∧
    (∀ (closed : List R4Row) (r : R4Row), r.submittalDate = none →
      nosubCountR4 (r :: closed) = nosubCountR4 closed + 1 ∧
      meanPopR4 (r :: closed) = meanPopR4 closed) := by
  refine ⟨?_, by decide, by decide, rfl, by decide, by decide, by decide, ?_⟩
  · intro m d y hm1 hm2 hd1 hd2 hy1 hy2
    have hd31 : d ≤ 31 := le_trans hd2 (daysInMonth_le y m)
    have hvm := digitsVal_fmt2 m (by omega)
    have hvd := digitsVal_fmt2 d (by omega)
    have hvy := digitsVal_fmt4 y (by omega)
    unfold parse_date
    dsimp only
    rw [pySplitOn_three (fmt2 m) (fmt2 d) (fmt4 y)
      (fmt2_no_slash m) (fmt2_no_slash d) (fmt4_no_slash y)]
    dsimp only
    rw [if_pos]
    · rw [hvm, hvd, hvy]
    · refine ⟨fmt2_all_digits m (by omega), by simp [fmt2], by simp [fmt2],
        ?_, ?_, fmt2_all_digits d (by omega), by simp [fmt2], by simp [fmt2],
        ?_, ?_, fmt4_all_digits y (by omega), by simp [fmt4], ?_⟩
      · rw [hvm]
        omega
      · rw [hvm]
        omega
      · rw [hvd]
        omega
      · rw [hvd, hvy, hvm]
        exact hd2
      · rw [hvy]
        omega
  · intro closed r hr
    constructor
    · unfold nosubCountR4
      rw [List.filter_cons, if_pos (by simp [hr])]
      simp [Nat.add_comm]
    · unfold meanPopR4
      rw [List.filter_cons, if_neg (by simp [hr])]

def w5Date : PyStr := fmt2 7 ++ 47 :: (fmt2 15 ++ 47 :: fmt4 2025)

/-- Witness for the amended C5: `"07/15/2025"` parses to (7, 15, 2025), and a
closed row with a `None` submittal date bumps the missing count while leaving
the mean population unchanged. -/
def w5Row : R4Row :=
  { folder := closed2025, underwriter := strOf "Unassigned",
    underwriterRaw := none, submittalDate := none, clearToClose := none }

theorem spec2_C5_witness :
    (1 ≤ 7 ∧ 7 ≤ 12 ∧ 1 ≤ 15 ∧ 15 ≤ daysInMonth 2025 7 ∧ 1 ≤ 2025 ∧ 2025 ≤ 9999) ∧
    parse_date (some w5Date) = some ⟨7, 15, 2025⟩ ∧
    w5Date = strOf "07/15/2025" ∧
    w5Row.submittalDate = none ∧
    (nosubCountR4 [w5Row] = nosubCountR4 [] + 1 ∧
     meanPopR4 [w5Row] = meanPopR4 []) :=
  ⟨by decide,
   spec2_C5.1 7 15 2025 (by decide) (by decide) (by decide) (by decide) (by decide) (by decide),
   by decide, by decide,
   spec2_C5.2.2.2.2.2.2.2 [] w5Row rfl⟩

def c3ActiveRow : R4Row :=
  { folder := strOf "Active Pipeline", underwriter := strOf "Unassigned",
    underwriterRaw := none, submittalDate := none, clearToClose := none }

/-- Counterexample for C3 as stated: with no loans in the `"Closed 2025"`
folder the missing-field percentage of report 4 divides by the zero-sized
closed population and raises `ZeroDivisionError` — it does not return an
undefined marker. -/
theorem spec2_C3_cx :
    get_template_context_r4 [c3ActiveRow] = Except.error "ZeroDivisionError" := by decide

def c3Officer : OfficerRow :=
  { normalizedName := strOf "ann wu", creditPulls := 0, closedLoans := 1,
    closeRatePct := none, loansPerPull := none,
    loanOfficer := strOf "Ann Wu", orgid := some (strOf "B1"), loanAmount := 0 }

def c3BranchOut : BranchRow :=
  { orgid := strOf "B1", closedLoans := 1, creditPulls := 0, loansPerPull := PFloat.inf }

unseal Rat.mul Rat.inv Rat.add Rat.sub in
/-- Claim C3 amended.  Only the per-officer rate lambdas of report 3 guard a
zero divisor (returning the `None` marker).  The missing-field percentages of
the report 4 context builder divide by the closed-loan count unguarded and
raise `ZeroDivisionError` whenever the filtered closed population is empty,
and the branch loans-per-pull table divides unguarded, producing `inf` (or
`NaN`) for a branch with zero credit pulls.  No `EmptyPopulationError` class
exists in the source. -/
theorem spec2_C3 :
    (∀ closed : Nat, close_rate_pct closed 0 = none ∧ loans_per_pull closed 0 = none) ∧
    (∀ rows : List R4Row, (ctxR4Closed rows).length = 0 →
      get_template_context_r4 rows = Except.error "ZeroDivisionError") ∧
    generate_closed_pulls_by_branch_table [c3Officer] = [c3BranchOut] := by
  refine ⟨?_, ?_, by decide⟩
  · intro closed
    constructor
    · unfold close_rate_pct
      rw [if_neg (by omega)]
    · unfold loans_per_pull
      rw [if_neg (by omega)]
  · intro rows h
    unfold get_template_context_r4
    dsimp only
    rw [show pyDivPct (nosubCountR4 (ctxR4Closed rows)) (ctxR4Closed rows).length 2
        = Except.error "ZeroDivisionError" by
      unfold pyDivPct
      rw [h]
      rfl]

/-- Witness for the amended C3: the rate lambdas at 7 closed loans and 0
pulls return the marker, and the concrete one-active-row input drives the
report 4 builder into `ZeroDivisionError`. -/
theorem spec2_C3_witness :
    (close_rate_pct 7 0 = none ∧ loans_per_pull 7 0 = none) ∧
    ((ctxR4Closed [c3ActiveRow]).length = 0 ∧
     get_template_context_r4 [c3ActiveRow] = Except.error "ZeroDivisionError") :=
  ⟨spec2_C3.1 7, by decide, spec2_C3.2.1 [c3ActiveRow] (by decide)⟩

/-!
report_4/context.py `add_images_context` and main.py.  The loop keeps a
Python local `width`, assigned only when one of the three membership tests
succeeds; `cfg.layout.metrics.custom` is an attribute bag, so a name listed
under `custom_width_imgs` but missing from the bag raises `AttributeError`.
An image matching no rule leaves `width` untouched: on the first image that
is an `UnboundLocalError`, on later images the previous width is silently
reused.  main.py calls the report runners in sequence with no per-variant
exception handling, so any exception propagates and ends the batch.
-/

structure LayoutR4 where
  fullWidthImgs : List PyStr
  halfWidthImgs : List PyStr
  customWidthImgs : List PyStr
  customMetrics : List (PyStr × ℚ)
deriving DecidableEq

def add_images_context (full half : ℚ) (ly : LayoutR4) :
    List PyStr → Option ℚ → Except String (List (PyStr × ℚ))
  | [], _ => .ok []
  | img :: rest, lastW =>
    match
      (if img ∈ ly.fullWidthImgs then .ok full
       else if img ∈ ly.halfWidthImgs then .ok half
       else if img ∈ ly.customWidthImgs then
         match ly.customMetrics.find? (fun p => decide (p.1 = img)) with
         | some p => .ok p.2
         | none => .error "AttributeError"
       else
         match lastW with
         | some w => .ok w
         | none => .error "UnboundLocalError" : Except String ℚ) with
    | .error e => .error e
    | .ok w =>
      match add_images_context full half ly rest (some w) with
      | .error e => .error e
      | .ok ctx => .ok ((img, w) :: ctx)

/-- main.py, all-reports path: the runners are invoked in order with no
try/except around any of them; the first exception ends the batch. -/
def run_all_reports : List (Except String Unit) → Except String Unit
  | [] => .ok ()
  | s :: rest =>
    match s with
    | .error e => .error e
    | .ok _ => run_all_reports rest

def c8Layout : LayoutR4 :=
  { fullWidthImgs := [strOf "a_img"], halfWidthImgs := [],
    customWidthImgs := [], customMetrics := [] }

/-- Counterexample for C8 as stated: the image identifier `"z_img"` matches
no layout rule, yet context building does not fail at all — the stale
`width` from the preceding image is silently reused, so no
`UnknownLayoutKeyError` (which does not exist in the source) and no abort
happens. -/
theorem spec2_C8_cx :
    add_images_context 6 3 c8Layout [strOf "a_img", strOf "z_img"] none
      = Except.ok [(strOf "a_img", 6), (strOf "z_img", 6)] := by decide

/-- Claim C8 amended.  An image identifier matching no layout rule raises
`UnboundLocalError` when it is the first image processed (the `width` local
was never assigned); when a previous image did match, the previous width is
silently reused and no error occurs.  When a report variant does raise, the
batch in main.py has no per-variant handler: the exception ends the whole
batch instead of logging and proceeding to the next variant. -/
theorem spec2_C8 :
    add_images_context 6 3 c8Layout [strOf "z_img"] none
      = Except.error "UnboundLocalError" ∧
    add_images_context 6 3 c8Layout [strOf "a_img", strOf "z_img"] none
      = Except.ok [(strOf "a_img", 6), (strOf "z_img", 6)] ∧
    run_all_reports [Except.ok (), Except.error "UnboundLocalError", Except.ok ()]
      = Except.error "UnboundLocalError" := by
  refine ⟨by decide, by decide, by decide⟩

section FolderFilterLemmas

lemma closedLoansOf_cons_ne (l : LoanR3) (loans : List LoanR3)
    (h : l.folder ≠ some closed2025) :
    closedLoansOf (l :: loans) = closedLoansOf loans := by
  unfold closedLoansOf
  rw [List.filter_cons, if_neg (by simp [h])]

lemma closedOfficerRaw_cons_ne (l : LoanR3) (loans : List LoanR3)
    (h : l.folder ≠ some closed2025) :
    closedOfficerRaw (l :: loans) = closedOfficerRaw loans := by
  unfold closedOfficerRaw
  rw [closedLoansOf_cons_ne l loans h]

lemma closedGroupedE_cons_ne (l : LoanR3) (loans : List LoanR3)
    (h : l.folder ≠ some closed2025) :
    closedGroupedE (l :: loans) = closedGroupedE loans := by
  unfold closedGroupedE closedPerOfficerE
  rw [closedOfficerRaw_cons_ne l loans h]

lemma ctxR4Closed_cons_ne (r : R4Row) (rows : List R4Row) (h : r.folder ≠ closed2025) :
    ctxR4Closed (r :: rows) = ctxR4Closed rows := by
  unfold ctxR4Closed
  rw [List.filter_cons, if_neg (by simp [h])]

lemma ctxR5Closed_cons_ne (r : R5Row) (rows : List R5Row) (h : r.folder ≠ closed2025) :
    ctxR5Closed (r :: rows) = ctxR5Closed rows := by
  unfold ctxR5Closed
  rw [List.filter_cons, if_neg (by simp [h])]

end FolderFilterLemmas

/-- Claim C10.  The "closed-loan subset" of reports 3, 4 and 5 is selected by
exact string equality of the `folder` field with `"Closed 2025"`, not by the
regex-derived status (which a `"Closed 2024"` loan also satisfies:
`extract_status "Closed 2024" = some "Closed"`).  Consequently a loan whose
folder is any other value contributes to no officer metric of the report 3
reconciliation (credit pulls joined, closed-loan counts, dominant branch,
total loan amount — the whole `preprocess` output is unchanged by the loan)
and to none of the closed-loan quantities of the report 4 and report 5
context builders. -/
theorem spec2_C10 :
    extract_status (strOf "Closed 2024") = some (strOf "Closed") ∧
    (∀ (ledger : List (PyStr × Nat)) (l : LoanR3) (loans : List LoanR3),
      l.folder ≠ some closed2025 →
      preprocessR3 ledger (l :: loans) = preprocessR3 ledger loans) ∧
    (∀ (r : R4Row) (rows : List R4Row), r.folder ≠ closed2025 →
      get_template_context_r4 (r :: rows) = get_template_context_r4 rows) ∧
    (∀ (r : R5Row) (rows : List R5Row), r.folder ≠ closed2025 →
      get_template_context_r5 (r :: rows) = get_template_context_r5 rows) := by
  refine ⟨by decide, ?_, ?_, ?_⟩
  · intro ledger l loans h
    unfold preprocessR3
    rw [closedGroupedE_cons_ne l loans h, closedLoansOf_cons_ne l loans h]
  · intro r rows h
    unfold get_template_context_r4
    rw [ctxR4Closed_cons_ne r rows h]
  · intro r rows h
    unfold get_template_context_r5
    rw [ctxR5Closed_cons_ne r rows h]

def w10Loan : LoanR3 :=
  { folder := some (strOf "Closed 2024"), officer := some (strOf "jane doe"),
    orgid := some (strOf "B1"), amount := some (strOf "$500") }

def w10R4Row : R4Row :=
  { folder := strOf "Closed 2024", underwriter := strOf "Ann Wu",
    underwriterRaw := some (strOf "Ann Wu"), submittalDate := none, clearToClose := none }

def w10R5Row : R5Row :=
  { folder := strOf "Closed 2024", branchProcessor := strOf "Unassigned",
    branchProcRaw := none, submittalDate := none, clearToClose := none }

/-- Witness for C10: a `"Closed 2024"` loan — regex status Closed — leaves
the report 3 reconciliation and the report 4/5 contexts exactly as they are
without it. -/
theorem spec2_C10_witness :
    w10Loan.folder ≠ some closed2025 ∧
    preprocessR3 c1Ledger (w10Loan :: c1Loans) = preprocessR3 c1Ledger c1Loans ∧
    get_template_context_r4 (w10R4Row :: [w5Row]) = get_template_context_r4 [w5Row] ∧
    get_template_context_r5 [w10R5Row] = get_template_context_r5 [] :=
  ⟨by decide,
   spec2_C10.2.1 c1Ledger w10Loan c1Loans (by decide),
   spec2_C10.2.2.1 w10R4Row [w5Row] (by decide),
   spec2_C10.2.2.2 w10R5Row [] (by decide)⟩
